import Mathlib

/-!
# Conservative stack visitor

A shallow embedding of `src/heap/conservative-stack-visitor.cc`: the visitor that
takes one word found on a stack, looks for the heap object it points into and
reports that object to a root visitor.

The visitor changes one thing in the heap (the PINNED flag of a page) and calls
three collaborators (the object-start bitmap of a page, the object iterator of a
page, the root visitor it delegates to).  The embedding passes the heap
explicitly and returns, next to the new heap, the list of those calls in the
order the code makes them.
-/

namespace ConservativeStackVisitor

/-! ## Data model -/

/-! An address, a value of the unsigned word type `Address` of the source, is a
natural number; the values a 64-bit target can hold are those below `2 ^ 64`. -/

/-- The sum `a + b` as the source computes it on `Address`: it wraps at
`2 ^ 64`. -/
def wrapAdd (a b : Nat) : Nat := (a + b) % 2 ^ 64

/-- A heap object, known by its start address (`HeapObject::address()`). -/
structure HeapObject where
  address : Nat
deriving DecidableEq, Repr

/-- The object that starts at an address (`HeapObject::FromAddress`). -/
def HeapObject.FromAddress (address : Nat) : HeapObject := ⟨address⟩

/-- A page of the old space.  `objects` is what the object iterator of the page
yields, in its order; `FindNearestPrecedingObject` is the answer of the
object-start bitmap of the page, a collaborator whose code is not part of the
source and which is therefore left arbitrary; `pinned` is the flag
`BasicMemoryChunk::Flag::PINNED`. -/
structure Page where
  area_start : Nat
  area_end : Nat
  objects : List HeapObject
  FindNearestPrecedingObject : Nat → Nat
  pinned : Bool

/-- A page of the large-object space. -/
structure LargePage where
  area_start : Nat
  area_end : Nat
  pinned : Bool
deriving DecidableEq, Repr

/-- The old space: its allocation bounds `top()` and `limit()` and its pages in
iteration order. -/
structure PagedSpace where
  top : Nat
  limit : Nat
  pages : List Page

/-- The heap of the isolate.  `size_at a` is what `Size()` reads for the object
at address `a` (the size is stored in the heap, not in the `HeapObject`
handle), as a value of the address type. -/
structure Heap where
  old_space : PagedSpace
  lo_space : List LargePage
  size_at : Nat → Nat

/-- The size of an object (`HeapObject::Size()`), read from the heap. -/
def HeapObject.Size (h : Heap) (obj : HeapObject) : Nat := h.size_at obj.address

/-- Modelled from the spec: the root kinds of the enumeration `Root`, whose
declaration is not part of the source.  `kHandleScope` is the enumerator the
code names (a handle-based kind); `ConservativeStackRoot` is the kind the spec
names for roots found by conservative stack scanning. -/
inductive Root
  | kHandleScope
  | ConservativeStackRoot
deriving DecidableEq, Repr

/-- The calls the visitor makes on the heap and on its collaborators.

* `FindNearestPrecedingObject a`: the object-start bitmap of a page is queried
  at `a`;
* `AdvanceToNextPageOffset a`: an object iterator of a page is created and
  advanced to `a`;
* `VisitRootPointer kind slotAddress value`: the delegate is notified.
  Modelled from the spec: the contract
  `VisitRootPointer(kind, slotAddress: nullable, value: Address)` of the sink,
  whose declaration is not part of the source; the second argument of the call
  is `slotAddress` and the object held by the slot passed third is `value`;
* `SetFlag i`: the PINNED flag of the page at position `i` of the old space is
  set. -/
inductive Event
  | FindNearestPrecedingObject (address : Nat)
  | AdvanceToNextPageOffset (offset : Nat)
  | VisitRootPointer (kind : Root) (slotAddress : Option Nat) (value : Nat)
  | SetFlag (page : Nat)
deriving DecidableEq, Repr

/-! ## The visitor -/

/-- The body of `ConservativeStackVisitor::VisitRoot`: the object at `address`
is wrapped in a slot and the delegate is called with `Root::kHandleScope`,
`nullptr` and that slot.  The `DCHECK` that follows compares the addresses of two
local variables in debug builds; it has no counterpart here. -/
def VisitRoot (address : Nat) : List Event :=
  let obj := HeapObject.FromAddress address
  [Event.VisitRootPointer Root.kHandleScope none obj.address]

/-- Modelled from the spec: `PagedSpaceObjectIterator::AdvanceToNextPageOffset`,
whose code is not part of the source.  The iterator of the page walks forward
over the objects of the page, in their order, and is advanced to the given
address: the objects that start before it are skipped. -/
def AdvanceToNextPageOffset (page : Page) (offset : Nat) : List HeapObject :=
  page.objects.dropWhile (fun obj => obj.address < offset)

/-- The loop `for (obj = it.Next(); !obj.is_null(); obj = it.Next())` of
`CheckOldSpacePage` over the objects the iterator still has: the value returned
and the calls made. -/
def scanObjects (h : Heap) (address : Nat) : List HeapObject → Bool × List Event
  | [] => (false, [])
  | obj :: it =>
    if obj.address > address then (false, [])
    else if address < wrapAdd obj.address (obj.Size h) then (true, VisitRoot obj.address)
    else scanObjects h address it

/-- The body of `ConservativeStackVisitor::CheckOldSpacePage`: the value
returned and the calls made. -/
def CheckOldSpacePage (h : Heap) (address : Nat) (page : Page) : Bool × List Event :=
  if address < page.area_start ∨ address ≥ page.area_end then (false, [])
  else
    let nearest_obj := HeapObject.FromAddress (page.FindNearestPrecedingObject address)
    if nearest_obj.address ≠ page.area_start ∧
        address ≤ wrapAdd nearest_obj.address (nearest_obj.Size h) then
      (true, Event.FindNearestPrecedingObject address :: VisitRoot nearest_obj.address)
    else
      let it := AdvanceToNextPageOffset page nearest_obj.address
      let r := scanObjects h address it
      (r.1, Event.FindNearestPrecedingObject address ::
              Event.AdvanceToNextPageOffset nearest_obj.address :: r.2)

/-- The loop over the pages of the old space in `VisitConservativelyIfPointer`,
from the page at position `i` on: whether a page matched, the pages after the
loop, and the calls made. -/
def oldSpaceLoop (h : Heap) (address : Nat) :
    Nat → List Page → Bool × List Page × List Event
  | _, [] => (false, [], [])
  | i, page :: rest =>
    let r := CheckOldSpacePage h address page
    if r.1 then
      (true, { page with pinned := true } :: rest, r.2 ++ [Event.SetFlag i])
    else
      let s := oldSpaceLoop h address (i + 1) rest
      (s.1, page :: s.2.1, r.2 ++ s.2.2)

/-- The loop over the pages of the large-object space in
`VisitConservativelyIfPointer`: the calls made. -/
def loSpaceLoop (address : Nat) : List LargePage → List Event
  | [] => []
  | page :: rest =>
    if address ≥ page.area_start ∧ address < page.area_end then VisitRoot page.area_start
    else loSpaceLoop address rest

/-- The body of `ConservativeStackVisitor::VisitConservativelyIfPointer`: the
heap after the call and the calls made, in order. -/
def VisitConservativelyIfPointer (h : Heap) (pointer : Nat) : Heap × List Event :=
  let address := pointer
  if address > h.old_space.top ∨ address < h.old_space.limit then (h, [])
  else
    let s := oldSpaceLoop h address 0 h.old_space.pages
    let h1 : Heap := { h with old_space := { h.old_space with pages := s.2.1 } }
    if s.1 then (h1, s.2.2)
    else (h1, s.2.2 ++ loSpaceLoop address h.lo_space)

/-- The body of `ConservativeStackVisitor::VisitPointer`. -/
def VisitPointer (h : Heap) (pointer : Nat) : Heap × List Event :=
  VisitConservativelyIfPointer h pointer

/-! ## Observations on a run -/

/-- The values of the root notifications in a list of calls, in order. -/
def roots : List Event → List Nat
  | [] => []
  | Event.VisitRootPointer _ _ value :: tr => value :: roots tr
  | _ :: tr => roots tr

/-- The positions of the pages whose PINNED flag a list of calls sets. -/
def pins : List Event → List Nat
  | [] => []
  | Event.SetFlag i :: tr => i :: pins tr
  | _ :: tr => pins tr

/-- The calls on a page's object-start bitmap or object iterator in a list of
calls. -/
def queries : List Event → List Event
  | [] => []
  | Event.FindNearestPrecedingObject a :: tr => Event.FindNearestPrecedingObject a :: queries tr
  | Event.AdvanceToNextPageOffset a :: tr => Event.AdvanceToNextPageOffset a :: queries tr
  | _ :: tr => queries tr

/-- The PINNED flags of all pages of a heap: old space first, then large-object
space. -/
def Heap.pinnedFlags (h : Heap) : List Bool :=
  h.old_space.pages.map (fun p => p.pinned) ++ h.lo_space.map (fun p => p.pinned)

/-- The root notifications in a list of calls, in order. -/
def notifications : List Event → List Event
  | [] => []
  | Event.VisitRootPointer k s v :: tr => Event.VisitRootPointer k s v :: notifications tr
  | _ :: tr => notifications tr

/-! ## Well-formedness of heaps, as the specification words it -/

/-- The address lies in `[area_start, area_end)` of the page. -/
def Page.Contains (p : Page) (a : Nat) : Prop := p.area_start ≤ a ∧ a < p.area_end

/-- The address lies in `[area_start, area_end)` of the large page. -/
def LargePage.Contains (p : LargePage) (a : Nat) : Prop := p.area_start ≤ a ∧ a < p.area_end

/-- The address range of a page of the old space. -/
def Page.range (p : Page) : Nat × Nat := (p.area_start, p.area_end)

/-- The address range of a large page. -/
def LargePage.range (p : LargePage) : Nat × Nat := (p.area_start, p.area_end)

/-- Two half-open ranges have no address in common. -/
def rangesDisjoint (r s : Nat × Nat) : Prop :=
  r.2 ≤ s.1 ∨ s.2 ≤ r.1 ∨ r.2 ≤ r.1 ∨ s.2 ≤ s.1

/-- The address ranges of the pages of the old space are pairwise disjoint. -/
def OldPagesDisjoint (h : Heap) : Prop :=
  (h.old_space.pages.map Page.range).Pairwise rangesDisjoint

/-- The address ranges of all pages, old space and large-object space, are
pairwise disjoint. -/
def PagesDisjoint (h : Heap) : Prop :=
  (h.old_space.pages.map Page.range ++ h.lo_space.map LargePage.range).Pairwise rangesDisjoint

/-- The objects of the page are listed in ascending order and do not overlap:
an object listed earlier starts before a later one and ends at or before its
start. -/
def ObjectsOrdered (h : Heap) (p : Page) : Prop :=
  p.objects.Pairwise (fun o1 o2 =>
    o1.address < o2.address ∧ o1.address + o1.Size h ≤ o2.address)

/-- The object is an object of the page: the iterator of the page lists it and
it lies inside the area of the page. -/
def OnPage (h : Heap) (p : Page) (obj : HeapObject) : Prop :=
  obj ∈ p.objects ∧ p.area_start ≤ obj.address ∧ obj.address + obj.Size h ≤ p.area_end

/-- The object-start bitmap of the page is exact at `a`: it answers with the
greatest object start at or before `a`, or with `area_start` when no object
starts at or before `a`. -/
def ExactAt (p : Page) (a : Nat) : Prop :=
  (HeapObject.FromAddress (p.FindNearestPrecedingObject a) ∈ p.objects ∧
      p.FindNearestPrecedingObject a ≤ a ∧
      ∀ o ∈ p.objects, o.address ≤ a → o.address ≤ p.FindNearestPrecedingObject a) ∨
  ((∀ o ∈ p.objects, a < o.address) ∧ p.FindNearestPrecedingObject a = p.area_start)

instance (p : Page) (a : Nat) : Decidable (ExactAt p a) := by
  unfold ExactAt; infer_instance

instance (p : Page) (a : Nat) : Decidable (p.Contains a) := by
  unfold Page.Contains; infer_instance

instance (p : LargePage) (a : Nat) : Decidable (p.Contains a) := by
  unfold LargePage.Contains; infer_instance

instance (r s : Nat × Nat) : Decidable (rangesDisjoint r s) := by
  unfold rangesDisjoint; infer_instance

instance (h : Heap) : Decidable (OldPagesDisjoint h) := by
  unfold OldPagesDisjoint; infer_instance

instance (h : Heap) : Decidable (PagesDisjoint h) := by
  unfold PagesDisjoint; infer_instance

instance (h : Heap) (p : Page) : Decidable (ObjectsOrdered h p) := by
  unfold ObjectsOrdered; infer_instance

instance (h : Heap) (p : Page) (obj : HeapObject) : Decidable (OnPage h p obj) := by
  unfold OnPage; infer_instance

/-- Modelled from the spec: the greatest start at or before `a` among the
objects of a list, if any (the object-start index, whose code is not part of
the source, "maps any address inside a page to the address of the nearest
object beginning at or before it"). -/
def greatestAtOrBefore : List HeapObject → Nat → Option Nat
  | [], _ => none
  | obj :: rest, a =>
    match greatestAtOrBefore rest a with
    | some m => if obj.address ≤ a ∧ m < obj.address then some obj.address else some m
    | none => if obj.address ≤ a then some obj.address else none

/-- Modelled from the spec: an exact object-start index for a page with the
given `area_start` and objects; it answers `area_start` when no object starts
at or before the address. -/
def exactIndex (area_start : Nat) (objects : List HeapObject) (a : Nat) : Nat :=
  (greatestAtOrBefore objects a).getD area_start

/-- The visitor resolves the word `w` to the address `v` on the page: `w` lies in the
area of the page and either `v` is the answer of the object-start bitmap, is not
`area_start` and `w` is at most its end as computed (the fast path), or `v` is the start of
an object of the page at or before `w` whose end as computed is after `w` (the scan). -/
def ResolvedOnPage (h : Heap) (p : Page) (w v : Nat) : Prop :=
  p.Contains w ∧
  ((v = p.FindNearestPrecedingObject w ∧ v ≠ p.area_start ∧ w ≤ wrapAdd v (h.size_at v)) ∨
    ∃ o ∈ p.objects, o.address = v ∧ v ≤ w ∧ w < wrapAdd v (o.Size h))

/-- The visitor resolves the word `w` to the address `v`: on a page of the old space, or
as the `area_start` of a large page whose area holds `w`. -/
def Resolved (h : Heap) (w v : Nat) : Prop :=
  (∃ p ∈ h.old_space.pages, ResolvedOnPage h p w v) ∨
  ∃ L ∈ h.lo_space, L.Contains w ∧ v = L.area_start

/-! ## Example heaps -/

/-- The objects of the end-to-end example of the specification. -/
def exampleObjects : List HeapObject := [⟨0x1000⟩, ⟨0x1030⟩]

/-- The page of the end-to-end example of the specification, with an exact
object-start index: area from 0x1000, objects at 0x1000 and 0x1030. -/
def examplePage : Page :=
  { area_start := 0x1000, area_end := 0x2000, objects := exampleObjects,
    FindNearestPrecedingObject := exactIndex 0x1000 exampleObjects, pinned := false }

/-- The object sizes of the end-to-end example: 0x20 at 0x1000, 0x10 at
0x1030. -/
def exampleSizes (a : Nat) : Nat :=
  if a = 0x1000 then 0x20 else if a = 0x1030 then 0x10 else 0

/-- A heap whose old space is the example page, allocated from 0x1000 to
0x2000, and whose large-object space is one page from 0x8000 to 0x9000. -/
def exampleHeap : Heap :=
  { old_space := { top := 0x2000, limit := 0x1000, pages := [examplePage] },
    lo_space := [⟨0x8000, 0x9000, false⟩],
    size_at := exampleSizes }

/-- The example heap with the allocation bounds of a linear allocation area that
follows the last object: `top()` is 0x1040 and `limit()` is 0x2000. -/
def linearAreaHeap : Heap :=
  { exampleHeap with old_space := { exampleHeap.old_space with top := 0x1040, limit := 0x2000 } }

/-- A page over the same area as the example page, whose one object starts at
0x1010, with an exact object-start index. -/
def overlapPage : Page :=
  { area_start := 0x1000, area_end := 0x2000, objects := [⟨0x1010⟩],
    FindNearestPrecedingObject := exactIndex 0x1000 [⟨0x1010⟩], pinned := false }

/-- A heap whose old space lists two pages over the same area: a page whose one
object is at 0x1000 (size 0x20), then `overlapPage` (object at 0x1010, size
0x10). -/
def overlapHeap : Heap :=
  { old_space :=
      { top := 0x2000, limit := 0x1000,
        pages := [{ area_start := 0x1000, area_end := 0x2000, objects := [⟨0x1000⟩],
                    FindNearestPrecedingObject := exactIndex 0x1000 [⟨0x1000⟩],
                    pinned := false }, overlapPage] },
    lo_space := [],
    size_at := fun a => if a = 0x1000 then 0x20 else if a = 0x1010 then 0x10 else 0 }

/-- The example heap with an old space allocated up to 0x9000, so that the
large page lies between `limit()` and `top()`. -/
def wideHeap : Heap :=
  { exampleHeap with old_space := { exampleHeap.old_space with top := 0x9000 } }

/-- A page whose two objects are adjacent, at 0x1010 and 0x1020, and whose
object-start index is coarse: it answers 0x1010, the start of the first object,
for every address. -/
def coarsePage : Page :=
  { area_start := 0x1000, area_end := 0x2000, objects := [⟨0x1010⟩, ⟨0x1020⟩],
    FindNearestPrecedingObject := fun _ => 0x1010, pinned := false }

/-- A heap whose old space is `coarsePage`; both objects have size 0x10. -/
def coarseHeap : Heap :=
  { old_space := { top := 0x2000, limit := 0x1000, pages := [coarsePage] },
    lo_space := [],
    size_at := fun a => if a = 0x1010 then 0x10 else if a = 0x1020 then 0x10 else 0 }

/-! ## Scans and the scan without the fast path -/

/-- A scan: `VisitPointer` is called on each word of a list in turn, each call on
the heap the call before it left.  The heap after the scan and all calls
made, in order. -/
def scanWords (h : Heap) : List Nat → Heap × List Event
  | [] => (h, [])
  | w :: ws =>
    let r := VisitPointer h w
    let s := scanWords r.1 ws
    (s.1, r.2 ++ s.2)

/-- The function `CheckOldSpacePage` with the index fast path removed, as the
refinement claim words it: after the range check, the linear scan alone, run
over the objects of the page from `area_start`.  The value returned and the
root notifications made. -/
def CheckOldSpacePageScanOnly (h : Heap) (address : Nat) (page : Page) : Bool × List Event :=
  if address < page.area_start ∨ address ≥ page.area_end then (false, [])
  else scanObjects h address (AdvanceToNextPageOffset page page.area_start)

/-! ## Lemmas on the loops -/

theorem wrapAdd_eq {a b : Nat} (hlt : a + b < 2 ^ 64) : wrapAdd a b = a + b := by
  unfold wrapAdd
  exact Nat.mod_eq_of_lt hlt

theorem roots_append (t u : List Event) : roots (t ++ u) = roots t ++ roots u := by
  induction t with
  | nil => rfl
  | cons e t ih => cases e <;> simp [roots, ih]

theorem pins_append (t u : List Event) : pins (t ++ u) = pins t ++ pins u := by
  induction t with
  | nil => rfl
  | cons e t ih => cases e <;> simp [pins, ih]

theorem CheckOldSpacePage_outside (h : Heap) (a : Nat) (p : Page)
    (hout : ¬ p.Contains a) : CheckOldSpacePage h a p = (false, []) := by
  simp only [Page.Contains, not_and, not_lt] at hout
  unfold CheckOldSpacePage
  rw [if_pos (by omega)]

theorem oldSpaceLoop_outside (h : Heap) (a : Nat) (ps : List Page)
    (hout : ∀ p ∈ ps, ¬ p.Contains a) (i : Nat) :
    oldSpaceLoop h a i ps = (false, ps, []) := by
  induction ps generalizing i with
  | nil => rfl
  | cons p ps ih =>
    have hp := CheckOldSpacePage_outside h a p (hout p (List.mem_cons_self _ _))
    have hps := ih (fun q hq => hout q (List.mem_cons_of_mem _ hq)) (i + 1)
    simp [oldSpaceLoop, hp, hps]

theorem loSpaceLoop_outside (a : Nat) (ls : List LargePage)
    (hout : ∀ p ∈ ls, ¬ p.Contains a) : loSpaceLoop a ls = [] := by
  induction ls with
  | nil => rfl
  | cons p ls ih =>
    have hp := hout p (List.mem_cons_self _ _)
    simp only [LargePage.Contains, not_and, not_lt] at hp
    unfold loSpaceLoop
    rw [if_neg (by omega)]
    exact ih (fun q hq => hout q (List.mem_cons_of_mem _ hq))

theorem notifications_append (t u : List Event) :
    notifications (t ++ u) = notifications t ++ notifications u := by
  induction t with
  | nil => rfl
  | cons e t ih => cases e <;> simp [notifications, ih]

theorem scanObjects_cons (h : Heap) (a : Nat) (o : HeapObject) (l : List HeapObject) :
    scanObjects h a (o :: l) =
      if o.address > a then (false, [])
      else if a < wrapAdd o.address (o.Size h) then (true, VisitRoot o.address)
      else scanObjects h a l := rfl

theorem scanObjects_false (h : Heap) (a : Nat) (l : List HeapObject)
    (hf : (scanObjects h a l).1 = false) : (scanObjects h a l).2 = [] := by
  induction l with
  | nil => rfl
  | cons o l ih =>
    rw [scanObjects_cons] at hf ⊢
    by_cases h1 : o.address > a
    · rw [if_pos h1]
    · rw [if_neg h1] at hf ⊢
      by_cases h2 : a < wrapAdd o.address (o.Size h)
      · rw [if_pos h2] at hf
        cases hf
      · rw [if_neg h2] at hf ⊢
        exact ih hf

theorem scanObjects_true (h : Heap) (a : Nat) (l : List HeapObject)
    (ht : (scanObjects h a l).1 = true) :
    ∃ o ∈ l, o.address ≤ a ∧ a < wrapAdd o.address (o.Size h) ∧
      (scanObjects h a l).2 = VisitRoot o.address := by
  induction l with
  | nil => cases ht
  | cons o l ih =>
    rw [scanObjects_cons] at ht ⊢
    by_cases h1 : o.address > a
    · rw [if_pos h1] at ht
      cases ht
    · rw [if_neg h1] at ht ⊢
      by_cases h2 : a < wrapAdd o.address (o.Size h)
      · rw [if_pos h2]
        exact ⟨o, List.mem_cons_self _ _, by omega, h2, rfl⟩
      · rw [if_neg h2] at ht ⊢
        obtain ⟨o', hm, hr⟩ := ih ht
        exact ⟨o', List.mem_cons_of_mem _ hm, hr⟩

theorem scanObjects_skip (h : Heap) (a : Nat) (pre rest : List HeapObject)
    (hpre : ∀ o ∈ pre, o.address ≤ a ∧ wrapAdd o.address (o.Size h) ≤ a) :
    scanObjects h a (pre ++ rest) = scanObjects h a rest := by
  induction pre with
  | nil => rfl
  | cons o pre ih =>
    have ho := hpre o (List.mem_cons_self _ _)
    rw [List.cons_append, scanObjects_cons, if_neg (by omega), if_neg (by omega)]
    exact ih (fun q hq => hpre q (List.mem_cons_of_mem _ hq))

theorem CheckOldSpacePage_fast (h : Heap) (a : Nat) (p : Page) (hin : p.Contains a)
    (hne : p.FindNearestPrecedingObject a ≠ p.area_start)
    (hle : a ≤ wrapAdd (p.FindNearestPrecedingObject a)
      (h.size_at (p.FindNearestPrecedingObject a))) :
    CheckOldSpacePage h a p =
      (true, [Event.FindNearestPrecedingObject a,
        Event.VisitRootPointer Root.kHandleScope none (p.FindNearestPrecedingObject a)]) := by
  unfold Page.Contains at hin
  unfold CheckOldSpacePage
  rw [if_neg (by omega)]
  simp only [HeapObject.FromAddress, HeapObject.Size]
  rw [if_pos ⟨hne, hle⟩]
  rfl

theorem CheckOldSpacePage_slow (h : Heap) (a : Nat) (p : Page) (hin : p.Contains a)
    (hno : ¬ (p.FindNearestPrecedingObject a ≠ p.area_start ∧
      a ≤ wrapAdd (p.FindNearestPrecedingObject a)
        (h.size_at (p.FindNearestPrecedingObject a)))) :
    CheckOldSpacePage h a p =
      ((scanObjects h a (AdvanceToNextPageOffset p (p.FindNearestPrecedingObject a))).1,
        Event.FindNearestPrecedingObject a ::
          Event.AdvanceToNextPageOffset (p.FindNearestPrecedingObject a) ::
          (scanObjects h a (AdvanceToNextPageOffset p (p.FindNearestPrecedingObject a))).2) := by
  unfold Page.Contains at hin
  unfold CheckOldSpacePage
  rw [if_neg (by omega)]
  simp only [HeapObject.FromAddress, HeapObject.Size]
  rw [if_neg hno]

theorem CheckOldSpacePage_false (h : Heap) (a : Nat) (p : Page)
    (hf : (CheckOldSpacePage h a p).1 = false) :
    roots (CheckOldSpacePage h a p).2 = [] ∧ pins (CheckOldSpacePage h a p).2 = [] ∧
      notifications (CheckOldSpacePage h a p).2 = [] := by
  by_cases hin : p.Contains a
  · by_cases hc : p.FindNearestPrecedingObject a ≠ p.area_start ∧
        a ≤ wrapAdd (p.FindNearestPrecedingObject a)
          (h.size_at (p.FindNearestPrecedingObject a))
    · rw [CheckOldSpacePage_fast h a p hin hc.1 hc.2] at hf
      cases hf
    · rw [CheckOldSpacePage_slow h a p hin hc] at hf ⊢
      simp only at hf
      simp [roots, pins, notifications, scanObjects_false h a _ hf]
  · rw [CheckOldSpacePage_outside h a p hin]
    exact ⟨rfl, rfl, rfl⟩

theorem CheckOldSpacePage_true (h : Heap) (a : Nat) (p : Page)
    (ht : (CheckOldSpacePage h a p).1 = true) :
    ∃ q v, (CheckOldSpacePage h a p).2 = q ++ VisitRoot v ∧ roots q = [] ∧ pins q = [] ∧
      notifications q = [] := by
  by_cases hin : p.Contains a
  · by_cases hc : p.FindNearestPrecedingObject a ≠ p.area_start ∧
        a ≤ wrapAdd (p.FindNearestPrecedingObject a)
          (h.size_at (p.FindNearestPrecedingObject a))
    · rw [CheckOldSpacePage_fast h a p hin hc.1 hc.2]
      exact ⟨[Event.FindNearestPrecedingObject a], _, rfl, rfl, rfl, rfl⟩
    · rw [CheckOldSpacePage_slow h a p hin hc] at ht ⊢
      simp only at ht
      obtain ⟨o, _, _, _, hr⟩ := scanObjects_true h a _ ht
      refine ⟨[Event.FindNearestPrecedingObject a,
        Event.AdvanceToNextPageOffset (p.FindNearestPrecedingObject a)], o.address,
        ?_, rfl, rfl, rfl⟩
      simp [hr]
  · rw [CheckOldSpacePage_outside h a p hin] at ht
    cases ht

theorem oldSpaceLoop_false (h : Heap) (a : Nat) (ps : List Page) (i : Nat)
    (hf : (oldSpaceLoop h a i ps).1 = false) :
    (oldSpaceLoop h a i ps).2.1 = ps ∧ roots (oldSpaceLoop h a i ps).2.2 = [] ∧
      pins (oldSpaceLoop h a i ps).2.2 = [] ∧
      notifications (oldSpaceLoop h a i ps).2.2 = [] ∧
      ∀ p ∈ ps, (CheckOldSpacePage h a p).1 = false := by
  induction ps generalizing i with
  | nil => simp [oldSpaceLoop, roots, pins, notifications]
  | cons p ps ih =>
    unfold oldSpaceLoop at hf ⊢
    by_cases hc : (CheckOldSpacePage h a p).1 = true
    · simp [hc] at hf
    · simp only [hc] at hf ⊢
      simp only [Bool.not_eq_true] at hc
      obtain ⟨e1, e2, e3, e4, e5⟩ := ih (i + 1) hf
      obtain ⟨c1, c2, c3⟩ := CheckOldSpacePage_false h a p hc
      simp [e1, e2, e3, e4, c1, c2, c3, roots_append, pins_append, notifications_append, hc]
      exact e5

theorem oldSpaceLoop_true (h : Heap) (a : Nat) (ps : List Page) (i : Nat)
    (ht : (oldSpaceLoop h a i ps).1 = true) :
    ∃ pre P post tr0, ps = pre ++ P :: post ∧
      (∀ p ∈ pre, (CheckOldSpacePage h a p).1 = false) ∧
      (CheckOldSpacePage h a P).1 = true ∧
      (oldSpaceLoop h a i ps).2.1 = pre ++ { P with pinned := true } :: post ∧
      (oldSpaceLoop h a i ps).2.2 =
        tr0 ++ (CheckOldSpacePage h a P).2 ++ [Event.SetFlag (i + pre.length)] ∧
      roots tr0 = [] ∧ pins tr0 = [] ∧ notifications tr0 = [] := by
  induction ps generalizing i with
  | nil => simp [oldSpaceLoop] at ht
  | cons p ps ih =>
    unfold oldSpaceLoop at ht ⊢
    by_cases hc : (CheckOldSpacePage h a p).1 = true
    · refine ⟨[], p, ps, [], rfl, by simp, hc, ?_, ?_, rfl, rfl, rfl⟩
      · simp [hc]
      · simp [hc]
    · simp only [hc] at ht ⊢
      simp only [Bool.not_eq_true] at hc
      obtain ⟨pre, P, post, tr0, e1, e2, e3, e4, e5, e6, e7, e8⟩ := ih (i + 1) ht
      obtain ⟨c1, c2, c3⟩ := CheckOldSpacePage_false h a p hc
      refine ⟨p :: pre, P, post, (CheckOldSpacePage h a p).2 ++ tr0, ?_, ?_, e3, ?_, ?_, ?_, ?_, ?_⟩
      · simp [e1]
      · intro q hq
        rcases List.mem_cons.1 hq with rfl | hq
        · exact hc
        · exact e2 q hq
      · simp [e4]
      · simp [e5, Nat.add_assoc, Nat.add_comm 1]
      · simp [roots_append, c1, e6]
      · simp [pins_append, c2, e7]
      · simp [notifications_append, c3, e8]

theorem oldSpaceLoop_hit (h : Heap) (a : Nat) (pre : List Page) (P : Page) (post : List Page)
    (i : Nat) (hpre : ∀ p ∈ pre, ¬ p.Contains a) (hP : (CheckOldSpacePage h a P).1 = true) :
    oldSpaceLoop h a i (pre ++ P :: post) =
      (true, pre ++ { P with pinned := true } :: post,
        (CheckOldSpacePage h a P).2 ++ [Event.SetFlag (i + pre.length)]) := by
  induction pre generalizing i with
  | nil => simp [oldSpaceLoop, hP]
  | cons p pre ih =>
    have hp := CheckOldSpacePage_outside h a p (hpre p (List.mem_cons_self _ _))
    have := ih (i + 1) (fun q hq => hpre q (List.mem_cons_of_mem _ hq))
    simp [oldSpaceLoop, hp, this, Nat.add_assoc, Nat.add_comm 1]

theorem oldSpaceLoop_miss (h : Heap) (a : Nat) (pre : List Page) (P : Page) (post : List Page)
    (i : Nat) (hpre : ∀ p ∈ pre, ¬ p.Contains a) (hpost : ∀ p ∈ post, ¬ p.Contains a)
    (hP : (CheckOldSpacePage h a P).1 = false) :
    oldSpaceLoop h a i (pre ++ P :: post) =
      (false, pre ++ P :: post, (CheckOldSpacePage h a P).2) := by
  induction pre generalizing i with
  | nil => simp [oldSpaceLoop, hP, oldSpaceLoop_outside h a post hpost]
  | cons p pre ih =>
    have hp := CheckOldSpacePage_outside h a p (hpre p (List.mem_cons_self _ _))
    have := ih (i + 1) (fun q hq => hpre q (List.mem_cons_of_mem _ hq))
    simp [oldSpaceLoop, hp, this]

theorem greatestAtOrBefore_spec (objs : List HeapObject) (a : Nat) :
    (∀ m, greatestAtOrBefore objs a = some m →
      HeapObject.FromAddress m ∈ objs ∧ m ≤ a ∧ ∀ o ∈ objs, o.address ≤ a → o.address ≤ m) ∧
    (greatestAtOrBefore objs a = none → ∀ o ∈ objs, a < o.address) := by
  induction objs with
  | nil => simp [greatestAtOrBefore]
  | cons o objs ih =>
    obtain ⟨ih1, ih2⟩ := ih
    unfold greatestAtOrBefore
    cases hg : greatestAtOrBefore objs a with
    | none =>
      have hn := ih2 hg
      simp only
      by_cases ho : o.address ≤ a
      · simp only [if_pos ho]
        refine ⟨?_, by simp⟩
        intro m hm
        cases hm
        refine ⟨by simp [HeapObject.FromAddress], ho, ?_⟩
        intro q hq hqa
        rcases List.mem_cons.1 hq with rfl | hq
        · exact Nat.le_refl _
        · have := hn q hq
          omega
      · simp only [if_neg ho]
        refine ⟨by simp, ?_⟩
        intro _ q hq
        rcases List.mem_cons.1 hq with rfl | hq
        · omega
        · exact hn q hq
    | some m0 =>
      obtain ⟨hm1, hm2, hm3⟩ := ih1 m0 hg
      simp only
      by_cases ho : o.address ≤ a ∧ m0 < o.address
      · simp only [if_pos ho]
        refine ⟨?_, by simp⟩
        intro m hm
        cases hm
        refine ⟨by simp [HeapObject.FromAddress], ho.1, ?_⟩
        intro q hq hqa
        rcases List.mem_cons.1 hq with rfl | hq
        · exact Nat.le_refl _
        · have := hm3 q hq hqa
          omega
      · simp only [if_neg ho]
        refine ⟨?_, by simp⟩
        intro m hm
        cases hm
        refine ⟨List.mem_cons_of_mem _ hm1, hm2, ?_⟩
        intro q hq hqa
        rcases List.mem_cons.1 hq with rfl | hq
        · omega
        · exact hm3 q hq hqa

theorem exactIndex_exactAt (p : Page)
    (hp : p.FindNearestPrecedingObject = exactIndex p.area_start p.objects) (a : Nat) :
    ExactAt p a := by
  unfold ExactAt
  rw [hp]
  unfold exactIndex
  obtain ⟨h1, h2⟩ := greatestAtOrBefore_spec p.objects a
  cases hg : greatestAtOrBefore p.objects a with
  | none => exact Or.inr ⟨h2 hg, rfl⟩
  | some m => exact Or.inl (h1 m hg)

theorem dropWhile_append_cons {α : Type} (q : α → Bool) (pre : List α) (x : α) (post : List α)
    (hx : q x = false) :
    (pre ++ x :: post).dropWhile q = pre.dropWhile q ++ x :: post := by
  induction pre with
  | nil => simp [List.dropWhile, hx]
  | cons y pre ih =>
    by_cases hy : q y = true
    · simp [List.dropWhile, hy, ih]
    · simp [List.dropWhile, hy]

theorem mem_dropWhile {α : Type} (q : α → Bool) (l : List α) (x : α)
    (hx : x ∈ l.dropWhile q) : x ∈ l :=
  (List.dropWhile_sublist q).subset hx

/-- The nearest object at or before an address inside an object is that object. -/
theorem exactAt_inside (h : Heap) (p : Page) (pre : List HeapObject) (O : HeapObject)
    (post : List HeapObject) (a : Nat) (hobjs : p.objects = pre ++ O :: post)
    (hord : ObjectsOrdered h p) (hex : ExactAt p a)
    (h1 : O.address ≤ a) (h2 : a < O.address + O.Size h) :
    p.FindNearestPrecedingObject a = O.address := by
  unfold ObjectsOrdered at hord
  rw [hobjs, List.pairwise_append, List.pairwise_cons] at hord
  obtain ⟨_, ⟨hpost, _⟩, hpre⟩ := hord
  unfold ExactAt at hex
  rcases hex with ⟨hm, hle, hg⟩ | ⟨hlt, _⟩
  · have hO := hg O (by rw [hobjs]; simp) h1
    rw [hobjs] at hm
    rcases List.mem_append.1 hm with hm | hm
    · have := (hpre _ hm O (List.mem_cons_self _ _)).1
      simp only [HeapObject.FromAddress] at this
      omega
    · rcases List.mem_cons.1 hm with hm | hm
      · rw [← hm]
        rfl
      · have := (hpost _ hm).2
        simp only [HeapObject.FromAddress] at this
        omega
  · have := hlt O (by rw [hobjs]; simp)
    omega

theorem CheckOldSpacePage_inside (h : Heap) (p : Page) (pre : List HeapObject)
    (O : HeapObject) (post : List HeapObject) (a : Nat)
    (hobjs : p.objects = pre ++ O :: post) (hord : ObjectsOrdered h p) (hex : ExactAt p a)
    (hstart : p.area_start ≤ O.address) (hend : O.address + O.Size h ≤ p.area_end)
    (hword : p.area_end < 2 ^ 64) (h1 : O.address ≤ a) (h2 : a < O.address + O.Size h) :
    (CheckOldSpacePage h a p).1 = true ∧
      notifications (CheckOldSpacePage h a p).2 =
        [Event.VisitRootPointer Root.kHandleScope none O.address] ∧
      pins (CheckOldSpacePage h a p).2 = [] ∧
      roots (CheckOldSpacePage h a p).2 = [O.address] := by
  have hn := exactAt_inside h p pre O post a hobjs hord hex h1 h2
  have hin : p.Contains a := ⟨by omega, by omega⟩
  have hw : wrapAdd O.address (O.Size h) = O.address + O.Size h := wrapAdd_eq (by omega)
  by_cases hne : p.FindNearestPrecedingObject a ≠ p.area_start
  · have hle : a ≤ wrapAdd (p.FindNearestPrecedingObject a)
        (h.size_at (p.FindNearestPrecedingObject a)) := by
      rw [hn]
      have : h.size_at O.address = O.Size h := rfl
      rw [this, hw]
      omega
    rw [CheckOldSpacePage_fast h a p hin hne hle, hn]
    exact ⟨rfl, rfl, rfl, rfl⟩
  · rw [CheckOldSpacePage_slow h a p hin (fun hc => hne hc.1), hn]
    unfold ObjectsOrdered at hord
    rw [hobjs, List.pairwise_append, List.pairwise_cons] at hord
    obtain ⟨_, _, hpre⟩ := hord
    have hdrop : AdvanceToNextPageOffset p O.address =
        pre.dropWhile (fun obj => decide (obj.address < O.address)) ++ O :: post := by
      unfold AdvanceToNextPageOffset
      rw [hobjs]
      exact dropWhile_append_cons _ pre O post (by simp)
    have hskip : ∀ o ∈ pre.dropWhile (fun obj => decide (obj.address < O.address)),
        o.address ≤ a ∧ wrapAdd o.address (o.Size h) ≤ a := by
      intro o ho
      have := hpre o (mem_dropWhile _ _ _ ho) O (List.mem_cons_self _ _)
      rw [wrapAdd_eq (by omega)]
      omega
    rw [hdrop, scanObjects_skip h a _ _ hskip, scanObjects_cons, if_neg (by omega),
      if_pos (by omega)]
    exact ⟨rfl, rfl, rfl, rfl⟩

theorem CheckOldSpacePage_hole (h : Heap) (p : Page) (pre : List HeapObject)
    (O1 O2 : HeapObject) (post : List HeapObject) (a : Nat)
    (hobjs : p.objects = pre ++ O1 :: O2 :: post) (hord : ObjectsOrdered h p)
    (hidx : p.FindNearestPrecedingObject a = p.area_start ∨
      ∃ o ∈ p.objects, o.address = p.FindNearestPrecedingObject a ∧ o.address ≤ a)
    (hword : p.area_end < 2 ^ 64) (h1 : O1.address + O1.Size h < a) (h2 : a < O2.address) :
    (CheckOldSpacePage h a p).1 = false := by
  by_cases hin : p.Contains a
  · have hin' := hin
    unfold Page.Contains at hin'
    unfold ObjectsOrdered at hord
    have hobjs' : p.objects = (pre ++ [O1]) ++ O2 :: post := by simp [hobjs]
    rw [hobjs', List.pairwise_append, List.pairwise_cons, List.pairwise_append] at hord
    obtain ⟨⟨_, _, hpre1⟩, ⟨hpost, _⟩, hpre2⟩ := hord
    have hbefore : ∀ o ∈ pre ++ [O1], o.address ≤ a ∧ wrapAdd o.address (o.Size h) < a := by
      intro o ho
      rcases List.mem_append.1 ho with ho | ho
      · have := hpre1 o ho O1 (by simp)
        rw [wrapAdd_eq (by omega)]
        omega
      · rw [List.mem_singleton.1 ho, wrapAdd_eq (by omega)]
        omega
    have hnle : p.FindNearestPrecedingObject a ≤ a := by
      rcases hidx with hi | ⟨o, _, ho, hoa⟩ <;> omega
    have hno : ¬ (p.FindNearestPrecedingObject a ≠ p.area_start ∧
        a ≤ wrapAdd (p.FindNearestPrecedingObject a)
          (h.size_at (p.FindNearestPrecedingObject a))) := by
      rintro ⟨hne, hle⟩
      rcases hidx with hi | ⟨o, hm, ho, hoa⟩
      · exact hne hi
      · rw [← ho] at hle
        rw [hobjs'] at hm
        rcases List.mem_append.1 hm with hm | hm
        · have := (hbefore o hm).2
          have hs : h.size_at o.address = o.Size h := rfl
          rw [hs] at hle
          omega
        · rcases List.mem_cons.1 hm with hm | hm
          · rw [hm] at hoa
            omega
          · have := (hpost o hm).1
            omega
    rw [CheckOldSpacePage_slow h a p hin hno]
    have hdrop : AdvanceToNextPageOffset p (p.FindNearestPrecedingObject a) =
        (pre ++ [O1]).dropWhile
          (fun obj => decide (obj.address < p.FindNearestPrecedingObject a)) ++ O2 :: post := by
      unfold AdvanceToNextPageOffset
      rw [hobjs']
      exact dropWhile_append_cons _ _ O2 post (by simp; omega)
    rw [hdrop, scanObjects_skip h a _ _ (fun o ho => ⟨(hbefore o (mem_dropWhile _ _ _ ho)).1,
        Nat.le_of_lt (hbefore o (mem_dropWhile _ _ _ ho)).2⟩),
      scanObjects_cons, if_pos (by omega)]
  · rw [CheckOldSpacePage_outside h a p hin]

theorem rangesDisjoint_not_mem {r s : Nat × Nat} (hd : rangesDisjoint r s) {a : Nat}
    (h1 : r.1 ≤ a) (h2 : a < r.2) : ¬ (s.1 ≤ a ∧ a < s.2) := by
  unfold rangesDisjoint at hd
  omega

theorem rangesDisjoint_symm {r s : Nat × Nat} (hd : rangesDisjoint r s) : rangesDisjoint s r := by
  unfold rangesDisjoint at hd ⊢
  omega

theorem PagesDisjoint.old {h : Heap} (hd : PagesDisjoint h) : OldPagesDisjoint h := by
  unfold PagesDisjoint at hd
  exact (List.pairwise_append.1 hd).1

theorem OldPagesDisjoint.others {h : Heap} (hd : OldPagesDisjoint h) {pre : List Page}
    {P : Page} {post : List Page} (hps : h.old_space.pages = pre ++ P :: post) {a : Nat}
    (hin : P.Contains a) :
    (∀ p ∈ pre, ¬ p.Contains a) ∧ (∀ p ∈ post, ¬ p.Contains a) := by
  unfold OldPagesDisjoint at hd
  rw [hps, List.map_append, List.map_cons, List.pairwise_append, List.pairwise_cons] at hd
  obtain ⟨_, ⟨hpost, _⟩, hpre⟩ := hd
  constructor
  · intro p hp
    exact rangesDisjoint_not_mem
      (rangesDisjoint_symm (hpre _ (List.mem_map_of_mem _ hp) _ (List.mem_cons_self _ _)))
      hin.1 hin.2
  · intro p hp
    exact rangesDisjoint_not_mem (hpost _ (List.mem_map_of_mem _ hp)) hin.1 hin.2

theorem PagesDisjoint.old_large {h : Heap} (hd : PagesDisjoint h) {P : Page}
    (hP : P ∈ h.old_space.pages) {L : LargePage} (hL : L ∈ h.lo_space) :
    rangesDisjoint P.range L.range := by
  unfold PagesDisjoint at hd
  exact (List.pairwise_append.1 hd).2.2 _ (List.mem_map_of_mem _ hP) _ (List.mem_map_of_mem _ hL)

theorem PagesDisjoint.large_before {h : Heap} (hd : PagesDisjoint h) {pre : List LargePage}
    {L : LargePage} {post : List LargePage} (hls : h.lo_space = pre ++ L :: post) {a : Nat}
    (hin : L.Contains a) : ∀ q ∈ pre, ¬ q.Contains a := by
  unfold PagesDisjoint at hd
  have hl := (List.pairwise_append.1 hd).2.1
  rw [hls, List.map_append, List.map_cons, List.pairwise_append] at hl
  intro q hq
  exact rangesDisjoint_not_mem
    (rangesDisjoint_symm (hl.2.2 _ (List.mem_map_of_mem _ hq) _ (List.mem_cons_self _ _)))
    hin.1 hin.2

theorem VisitPointer_filtered (h : Heap) (w : Nat)
    (hf : w > h.old_space.top ∨ w < h.old_space.limit) : VisitPointer h w = (h, []) := by
  unfold VisitPointer VisitConservativelyIfPointer
  simp only
  rw [if_pos hf]

theorem VisitPointer_pass (h : Heap) (w : Nat)
    (hlimit : h.old_space.limit ≤ w) (htop : w ≤ h.old_space.top) :
    VisitPointer h w =
      if (oldSpaceLoop h w 0 h.old_space.pages).1 then
        ({ h with old_space :=
            { h.old_space with pages := (oldSpaceLoop h w 0 h.old_space.pages).2.1 } },
          (oldSpaceLoop h w 0 h.old_space.pages).2.2)
      else
        ({ h with old_space :=
            { h.old_space with pages := (oldSpaceLoop h w 0 h.old_space.pages).2.1 } },
          (oldSpaceLoop h w 0 h.old_space.pages).2.2 ++ loSpaceLoop w h.lo_space) := by
  unfold VisitPointer VisitConservativelyIfPointer
  simp only
  rw [if_neg (by omega)]

theorem VisitPointer_hit (h : Heap) (w : Nat)
    (hlimit : h.old_space.limit ≤ w) (htop : w ≤ h.old_space.top)
    (ht : (oldSpaceLoop h w 0 h.old_space.pages).1 = true) :
    ∃ pre P post tr0, h.old_space.pages = pre ++ P :: post ∧
      (∀ p ∈ pre, (CheckOldSpacePage h w p).1 = false) ∧
      (CheckOldSpacePage h w P).1 = true ∧
      VisitPointer h w =
        ({ h with old_space :=
            { h.old_space with pages := pre ++ { P with pinned := true } :: post } },
          tr0 ++ (CheckOldSpacePage h w P).2 ++ [Event.SetFlag pre.length]) ∧
      roots tr0 = [] ∧ pins tr0 = [] ∧ notifications tr0 = [] := by
  obtain ⟨pre, P, post, tr0, e1, e2, e3, e4, e5, e6, e7, e8⟩ :=
    oldSpaceLoop_true h w h.old_space.pages 0 ht
  refine ⟨pre, P, post, tr0, e1, e2, e3, ?_, e6, e7, e8⟩
  rw [VisitPointer_pass h w hlimit htop, if_pos ht, e4, e5, Nat.zero_add]

theorem VisitPointer_miss (h : Heap) (w : Nat)
    (hlimit : h.old_space.limit ≤ w) (htop : w ≤ h.old_space.top)
    (hf : (oldSpaceLoop h w 0 h.old_space.pages).1 = false) :
    (∀ p ∈ h.old_space.pages, (CheckOldSpacePage h w p).1 = false) ∧
      VisitPointer h w =
        (h, (oldSpaceLoop h w 0 h.old_space.pages).2.2 ++ loSpaceLoop w h.lo_space) ∧
      roots (oldSpaceLoop h w 0 h.old_space.pages).2.2 = [] ∧
      pins (oldSpaceLoop h w 0 h.old_space.pages).2.2 = [] ∧
      notifications (oldSpaceLoop h w 0 h.old_space.pages).2.2 = [] := by
  obtain ⟨e1, e2, e3, e4, e5⟩ := oldSpaceLoop_false h w h.old_space.pages 0 hf
  refine ⟨e5, ?_, e2, e3, e4⟩
  rw [VisitPointer_pass h w hlimit htop, hf, e1]
  rfl

theorem loSpaceLoop_cases (a : Nat) (ls : List LargePage) :
    ((∀ L ∈ ls, ¬ L.Contains a) ∧ loSpaceLoop a ls = []) ∨
    ∃ pre L post, ls = pre ++ L :: post ∧ (∀ q ∈ pre, ¬ q.Contains a) ∧ L.Contains a ∧
      loSpaceLoop a ls = VisitRoot L.area_start := by
  induction ls with
  | nil => exact Or.inl ⟨by simp, rfl⟩
  | cons L ls ih =>
    by_cases hc : L.Contains a
    · refine Or.inr ⟨[], L, ls, rfl, by simp, hc, ?_⟩
      unfold LargePage.Contains at hc
      unfold loSpaceLoop
      rw [if_pos (by omega)]
    · have hc' := hc
      simp only [LargePage.Contains, not_and, not_lt] at hc'
      have hstep : loSpaceLoop a (L :: ls) = loSpaceLoop a ls := by
        rw [loSpaceLoop, if_neg (by omega)]
      rcases ih with ⟨h1, h2⟩ | ⟨pre, L', post, h1, h2, h3, h4⟩
      · refine Or.inl ⟨?_, by rw [hstep, h2]⟩
        intro q hq
        rcases List.mem_cons.1 hq with rfl | hq
        · exact hc
        · exact h1 q hq
      · refine Or.inr ⟨L :: pre, L', post, by simp [h1], ?_, h3, by rw [hstep, h4]⟩
        intro q hq
        rcases List.mem_cons.1 hq with rfl | hq
        · exact hc
        · exact h2 q hq

theorem pins_VisitRoot (v : Nat) : pins (VisitRoot v) = [] := rfl

theorem roots_VisitRoot (v : Nat) : roots (VisitRoot v) = [v] := rfl

theorem notifications_VisitRoot (v : Nat) :
    notifications (VisitRoot v) = [Event.VisitRootPointer Root.kHandleScope none v] := rfl

theorem pins_loSpaceLoop (a : Nat) (ls : List LargePage) : pins (loSpaceLoop a ls) = [] := by
  rcases loSpaceLoop_cases a ls with ⟨_, h2⟩ | ⟨_, _, _, _, _, _, h4⟩
  · rw [h2]; rfl
  · rw [h4]; rfl

theorem roots_loSpaceLoop_length (a : Nat) (ls : List LargePage) :
    (roots (loSpaceLoop a ls)).length ≤ 1 := by
  rcases loSpaceLoop_cases a ls with ⟨_, h2⟩ | ⟨_, _, _, _, _, _, h4⟩
  · rw [h2]; simp [roots]
  · rw [h4]; simp [roots_VisitRoot]

theorem scanObjects_congr (h h' : Heap) (hs : h'.size_at = h.size_at) (a : Nat)
    (l : List HeapObject) : scanObjects h' a l = scanObjects h a l := by
  induction l with
  | nil => rfl
  | cons o l ih =>
    rw [scanObjects_cons, scanObjects_cons, ih]
    simp only [HeapObject.Size, hs]

theorem CheckOldSpacePage_congr (h h' : Heap) (hs : h'.size_at = h.size_at) (a : Nat)
    (p : Page) : CheckOldSpacePage h' a p = CheckOldSpacePage h a p := by
  unfold CheckOldSpacePage
  simp only [HeapObject.Size, hs, scanObjects_congr h h' hs]

theorem CheckOldSpacePage_pinned (h : Heap) (a : Nat) (p : Page) (b : Bool) :
    CheckOldSpacePage h a { p with pinned := b } = CheckOldSpacePage h a p := rfl

theorem oldSpaceLoop_idem (h h' : Heap) (hs : h'.size_at = h.size_at) (a : Nat)
    (ps : List Page) (i : Nat) :
    oldSpaceLoop h' a i (oldSpaceLoop h a i ps).2.1 = oldSpaceLoop h a i ps := by
  induction ps generalizing i with
  | nil => rfl
  | cons p ps ih =>
    by_cases hc : (CheckOldSpacePage h a p).1 = true
    · have e : oldSpaceLoop h a i (p :: ps) =
          (true, { p with pinned := true } :: ps,
            (CheckOldSpacePage h a p).2 ++ [Event.SetFlag i]) := by
        simp [oldSpaceLoop, hc]
      rw [e]
      simp only
      have hc' : (CheckOldSpacePage h' a { p with pinned := true }).1 = true := by
        rw [CheckOldSpacePage_congr h h' hs, CheckOldSpacePage_pinned]
        exact hc
      have e' : oldSpaceLoop h' a i ({ p with pinned := true } :: ps) =
          (true, { p with pinned := true } :: ps,
            (CheckOldSpacePage h' a { p with pinned := true }).2 ++ [Event.SetFlag i]) := by
        simp [oldSpaceLoop, hc']
      rw [e', CheckOldSpacePage_congr h h' hs, CheckOldSpacePage_pinned]
    · have e : oldSpaceLoop h a i (p :: ps) =
          ((oldSpaceLoop h a (i + 1) ps).1, p :: (oldSpaceLoop h a (i + 1) ps).2.1,
            (CheckOldSpacePage h a p).2 ++ (oldSpaceLoop h a (i + 1) ps).2.2) := by
        simp [oldSpaceLoop, hc]
      rw [e]
      simp only
      have hc' : ¬ (CheckOldSpacePage h' a p).1 = true := by
        rw [CheckOldSpacePage_congr h h' hs]
        exact hc
      have e' : oldSpaceLoop h' a i (p :: (oldSpaceLoop h a (i + 1) ps).2.1) =
          ((oldSpaceLoop h' a (i + 1) (oldSpaceLoop h a (i + 1) ps).2.1).1,
            p :: (oldSpaceLoop h' a (i + 1) (oldSpaceLoop h a (i + 1) ps).2.1).2.1,
            (CheckOldSpacePage h' a p).2 ++
              (oldSpaceLoop h' a (i + 1) (oldSpaceLoop h a (i + 1) ps).2.1).2.2) := by
        simp [oldSpaceLoop, hc']
      rw [e', ih (i + 1), CheckOldSpacePage_congr h h' hs]

theorem CheckOldSpacePage_true_resolved (h : Heap) (a : Nat) (p : Page)
    (ht : (CheckOldSpacePage h a p).1 = true) :
    ∃ q v, (CheckOldSpacePage h a p).2 = q ++ VisitRoot v ∧ roots q = [] ∧ pins q = [] ∧
      notifications q = [] ∧ ResolvedOnPage h p a v := by
  by_cases hin : p.Contains a
  · by_cases hc : p.FindNearestPrecedingObject a ≠ p.area_start ∧
        a ≤ wrapAdd (p.FindNearestPrecedingObject a)
          (h.size_at (p.FindNearestPrecedingObject a))
    · rw [CheckOldSpacePage_fast h a p hin hc.1 hc.2]
      exact ⟨[Event.FindNearestPrecedingObject a], _, rfl, rfl, rfl, rfl, hin,
        Or.inl ⟨rfl, hc.1, hc.2⟩⟩
    · rw [CheckOldSpacePage_slow h a p hin hc] at ht ⊢
      simp only at ht
      obtain ⟨o, hm, h1, h2, hr⟩ := scanObjects_true h a _ ht
      refine ⟨[Event.FindNearestPrecedingObject a,
        Event.AdvanceToNextPageOffset (p.FindNearestPrecedingObject a)], o.address,
        ?_, rfl, rfl, rfl, hin, Or.inr ⟨o, mem_dropWhile _ _ _ hm, rfl, h1, h2⟩⟩
      simp [hr]
  · rw [CheckOldSpacePage_outside h a p hin] at ht
    cases ht

theorem mem_notifications (k : Root) (s : Option Nat) (v : Nat) (tr : List Event) :
    Event.VisitRootPointer k s v ∈ tr ↔ Event.VisitRootPointer k s v ∈ notifications tr := by
  induction tr with
  | nil => simp [notifications]
  | cons e tr ih => cases e <;> simp [notifications, ih]

/-- The root notifications of one call: none, or the one of `VisitRoot` for an address the
word was resolved to. -/
theorem notifications_VisitPointer (h : Heap) (w : Nat) :
    notifications (VisitPointer h w).2 = [] ∨
    ∃ v, Resolved h w v ∧
      notifications (VisitPointer h w).2 = [Event.VisitRootPointer Root.kHandleScope none v] := by
  by_cases hf : w > h.old_space.top ∨ w < h.old_space.limit
  · rw [VisitPointer_filtered h w hf]
    exact Or.inl rfl
  · by_cases ht : (oldSpaceLoop h w 0 h.old_space.pages).1 = true
    · obtain ⟨pre, P, post, tr0, e1, _, e3, e4, e5, e6, e7⟩ :=
        VisitPointer_hit h w (by omega) (by omega) ht
      obtain ⟨q, v, c1, c2, c3, c4, c5⟩ := CheckOldSpacePage_true_resolved h w P e3
      refine Or.inr ⟨v, Or.inl ⟨P, by rw [e1]; simp, c5⟩, ?_⟩
      rw [e4, c1]
      rw [notifications_append, notifications_append, notifications_append, e7, c4,
        notifications_VisitRoot]
      rfl
    · simp only [Bool.not_eq_true] at ht
      obtain ⟨_, e2, e3, e4, e5⟩ := VisitPointer_miss h w (by omega) (by omega) ht
      rw [e2]
      simp only
      rw [notifications_append, e5]
      rcases loSpaceLoop_cases w h.lo_space with ⟨_, h2⟩ | ⟨pre, L, post, h1, _, h3, h4⟩
      · rw [h2]
        exact Or.inl rfl
      · rw [h4]
        exact Or.inr ⟨L.area_start, Or.inr ⟨L, by rw [h1]; simp, h3, rfl⟩, rfl⟩

theorem oldSpaceLoop_all_false (h : Heap) (a : Nat) (ps : List Page) (i : Nat)
    (hps : ∀ p ∈ ps, (CheckOldSpacePage h a p).1 = false) :
    (oldSpaceLoop h a i ps).1 = false := by
  induction ps generalizing i with
  | nil => rfl
  | cons p ps ih =>
    have hp := hps p (List.mem_cons_self _ _)
    have := ih (i + 1) (fun q hq => hps q (List.mem_cons_of_mem _ hq))
    simp [oldSpaceLoop, hp, this]

theorem oldSpaceLoop_first (h : Heap) (a : Nat) (pre : List Page) (P : Page)
    (post : List Page) (i : Nat)
    (hpre : ∀ p ∈ pre, (CheckOldSpacePage h a p).1 = false)
    (hP : (CheckOldSpacePage h a P).1 = true) :
    oldSpaceLoop h a i (pre ++ P :: post) =
      (true, pre ++ { P with pinned := true } :: post,
        (oldSpaceLoop h a i pre).2.2 ++ (CheckOldSpacePage h a P).2 ++
          [Event.SetFlag (i + pre.length)]) := by
  induction pre generalizing i with
  | nil => simp [oldSpaceLoop, hP]
  | cons p pre ih =>
    have hp := hpre p (List.mem_cons_self _ _)
    have := ih (i + 1) (fun q hq => hpre q (List.mem_cons_of_mem _ hq))
    simp [oldSpaceLoop, hp, this, Nat.add_assoc, Nat.add_comm 1]

theorem loSpaceLoop_hit (a : Nat) (pre : List LargePage) (L : LargePage)
    (post : List LargePage) (hpre : ∀ q ∈ pre, ¬ q.Contains a) (hL : L.Contains a) :
    loSpaceLoop a (pre ++ L :: post) = VisitRoot L.area_start := by
  induction pre with
  | nil =>
    unfold LargePage.Contains at hL
    rw [List.nil_append, loSpaceLoop, if_pos (by omega)]
  | cons q pre ih =>
    have hq := hpre q (List.mem_cons_self _ _)
    simp only [LargePage.Contains, not_and, not_lt] at hq
    rw [List.cons_append, loSpaceLoop, if_neg (by omega)]
    exact ih (fun r hr => hpre r (List.mem_cons_of_mem _ hr))

theorem exactAt_example {page : Page} (hobjs : page.objects = [⟨0x1000⟩, ⟨0x1030⟩])
    (hstart : page.area_start = 0x1000) {a : Nat} (hex : ExactAt page a) :
    (0x1000 ≤ a → a < 0x1030 → page.FindNearestPrecedingObject a = 0x1000) ∧
    (0x1030 ≤ a → page.FindNearestPrecedingObject a = 0x1030) := by
  unfold ExactAt at hex
  simp only [hobjs, hstart, HeapObject.FromAddress, List.mem_cons, List.mem_singleton,
    List.not_mem_nil, or_false, forall_eq_or_imp, forall_eq, HeapObject.mk.injEq] at hex
  constructor
  · intro h1 h2
    rcases hex with ⟨hm | hm, hle, _⟩ | ⟨⟨hlt, _⟩, _⟩ <;> omega
  · intro h1
    rcases hex with ⟨hm | hm, hle, hg1, hg2⟩ | ⟨⟨hlt, _⟩, _⟩ <;> omega

theorem getElem?_set_true (pre : List Bool) (b : Bool) (post : List Bool) (i : Nat)
    (hi : (pre ++ b :: post)[i]? = some true) : (pre ++ true :: post)[i]? = some true := by
  induction pre generalizing i with
  | nil =>
    cases i with
    | zero => simp
    | succ i => simpa using hi
  | cons c pre ih =>
    cases i with
    | zero => simpa using hi
    | succ i =>
      simp only [List.cons_append, List.getElem?_cons_succ] at hi ⊢
      exact ih i hi

theorem pinnedFlags_VisitPointer (h : Heap) (w : Nat) (i : Nat)
    (hpin : h.pinnedFlags[i]? = some true) :
    (VisitPointer h w).1.pinnedFlags[i]? = some true := by
  by_cases hf : w > h.old_space.top ∨ w < h.old_space.limit
  · rw [VisitPointer_filtered h w hf]
    exact hpin
  · by_cases ht : (oldSpaceLoop h w 0 h.old_space.pages).1 = true
    · obtain ⟨pre, P, post, tr0, e1, _, _, e4, _⟩ :=
        VisitPointer_hit h w (by omega) (by omega) ht
      rw [e4]
      unfold Heap.pinnedFlags at hpin ⊢
      rw [e1] at hpin
      simp only [List.map_append, List.map_cons, List.append_assoc, List.cons_append] at hpin ⊢
      exact getElem?_set_true _ _ _ i hpin
    · simp only [Bool.not_eq_true] at ht
      rw [(VisitPointer_miss h w (by omega) (by omega) ht).2.1]
      exact hpin

theorem pinnedFlags_scanWords (ws : List Nat) (h : Heap) (i : Nat)
    (hpin : h.pinnedFlags[i]? = some true) :
    (scanWords h ws).1.pinnedFlags[i]? = some true := by
  induction ws generalizing h with
  | nil => exact hpin
  | cons w ws ih => exact ih (VisitPointer h w).1 (pinnedFlags_VisitPointer h w i hpin)

theorem mem_roots (r : Nat) (tr : List Event) :
    r ∈ roots tr ↔ ∃ k s, Event.VisitRootPointer k s r ∈ tr := by
  induction tr with
  | nil => simp [roots]
  | cons e tr ih =>
    cases e with
    | VisitRootPointer k s v =>
      simp only [roots, List.mem_cons, ih, Event.VisitRootPointer.injEq]
      constructor
      · rintro (rfl | ⟨k', s', hm⟩)
        · exact ⟨k, s, Or.inl ⟨rfl, rfl, rfl⟩⟩
        · exact ⟨k', s', Or.inr hm⟩
      · rintro ⟨k', s', ⟨_, _, rfl⟩ | hm⟩
        · exact Or.inl rfl
        · exact Or.inr ⟨k', s', hm⟩
    | FindNearestPrecedingObject a => simp [roots, ih]
    | AdvanceToNextPageOffset a => simp [roots, ih]
    | SetFlag i => simp [roots, ih]

theorem resolved_of_mem_roots (h : Heap) (w r : Nat) (hr : r ∈ roots (VisitPointer h w).2) :
    Resolved h w r := by
  obtain ⟨k, s, hm⟩ := (mem_roots r _).1 hr
  rw [mem_notifications] at hm
  rcases notifications_VisitPointer h w with hn | ⟨v, hres, hn⟩
  · rw [hn] at hm
    cases hm
  · rw [hn, List.mem_singleton] at hm
    cases hm
    exact hres

theorem scanObjects_advance (h : Heap) (p : Page) (pre : List HeapObject) (X : HeapObject)
    (post : List HeapObject) (a n : Nat) (hobjs : p.objects = pre ++ X :: post)
    (hord : ObjectsOrdered h p) (hX : X.address ≤ a) (ha : a < 2 ^ 64) (hn : n ≤ X.address) :
    scanObjects h a (AdvanceToNextPageOffset p n) = scanObjects h a (X :: post) := by
  unfold ObjectsOrdered at hord
  rw [hobjs, List.pairwise_append, List.pairwise_cons] at hord
  obtain ⟨_, _, hpre⟩ := hord
  have hdrop : AdvanceToNextPageOffset p n =
      pre.dropWhile (fun obj => decide (obj.address < n)) ++ X :: post := by
    unfold AdvanceToNextPageOffset
    rw [hobjs]
    exact dropWhile_append_cons _ pre X post (by simp; omega)
  rw [hdrop]
  apply scanObjects_skip
  intro o ho
  have := hpre o (mem_dropWhile _ _ _ ho) X (List.mem_cons_self _ _)
  rw [wrapAdd_eq (by omega)]
  omega

/-- With an index that may be coarse, `CheckOldSpacePage` finds the object that holds
the address, unless the fast path fires on an earlier object that ends exactly at the
address. -/
theorem CheckOldSpacePage_coarse (h : Heap) (p : Page) (O : HeapObject) (a : Nat)
    (hord : ObjectsOrdered h p) (hO : OnPage h p O) (hword : p.area_end < 2 ^ 64)
    (h1 : O.address ≤ a) (h2 : a < O.address + O.Size h)
    (hidx : p.FindNearestPrecedingObject a = p.area_start ∨
      ∃ o ∈ p.objects, o.address = p.FindNearestPrecedingObject a ∧ o.address ≤ a)
    (hgood : ¬ (p.FindNearestPrecedingObject a ≠ p.area_start ∧
      p.FindNearestPrecedingObject a ≠ O.address ∧
      a = wrapAdd (p.FindNearestPrecedingObject a)
        (h.size_at (p.FindNearestPrecedingObject a)))) :
    (CheckOldSpacePage h a p).1 = true ∧ roots (CheckOldSpacePage h a p).2 = [O.address] := by
  obtain ⟨hmem, hstart, hend⟩ := hO
  obtain ⟨pre, post, hobjs⟩ := List.append_of_mem hmem
  have hin : p.Contains a := ⟨by omega, by omega⟩
  have hw : wrapAdd O.address (O.Size h) = O.address + O.Size h := wrapAdd_eq (by omega)
  have hord' := hord
  unfold ObjectsOrdered at hord'
  rw [hobjs, List.pairwise_append, List.pairwise_cons] at hord'
  obtain ⟨_, ⟨hpost, _⟩, hpre⟩ := hord'
  -- the answer of the index is `area_start`, the start of `O`, or the start of an
  -- earlier object, which ends at or before `O`
  have hans : p.FindNearestPrecedingObject a = p.area_start ∨
      p.FindNearestPrecedingObject a = O.address ∨
      (p.FindNearestPrecedingObject a < O.address ∧
        p.FindNearestPrecedingObject a + h.size_at (p.FindNearestPrecedingObject a)
          ≤ O.address) := by
    rcases hidx with hi | ⟨o, hm, ho, hoa⟩
    · exact Or.inl hi
    · rw [hobjs] at hm
      rcases List.mem_append.1 hm with hm | hm
      · have := hpre o hm O (List.mem_cons_self _ _)
        rw [← ho]
        exact Or.inr (Or.inr this)
      · rcases List.mem_cons.1 hm with hm | hm
        · rw [← ho, hm]
          exact Or.inr (Or.inl rfl)
        · have := (hpost o hm).2
          omega
  by_cases hc : p.FindNearestPrecedingObject a ≠ p.area_start ∧
      a ≤ wrapAdd (p.FindNearestPrecedingObject a) (h.size_at (p.FindNearestPrecedingObject a))
  · rw [CheckOldSpacePage_fast h a p hin hc.1 hc.2]
    rcases hans with hi | hi | ⟨hlt, hle⟩
    · exact absurd hi hc.1
    · rw [hi]
      exact ⟨rfl, rfl⟩
    · exfalso
      apply hgood
      refine ⟨hc.1, by omega, ?_⟩
      have := hc.2
      rw [wrapAdd_eq (by omega)] at this ⊢
      omega
  · rw [CheckOldSpacePage_slow h a p hin hc]
    have hn : p.FindNearestPrecedingObject a ≤ O.address := by
      rcases hans with hi | hi | ⟨hlt, _⟩ <;> omega
    rw [scanObjects_advance h p pre O post a _ hobjs hord h1 (by omega) hn, scanObjects_cons,
      if_neg (by omega), if_pos (by omega)]
    exact ⟨rfl, rfl⟩

/-- With an exact index, `CheckOldSpacePage` and the scan alone agree on the value
returned and on the roots reported, unless the fast path fires at the address just past
the end of the nearest object. -/
theorem CheckOldSpacePage_eq_scanOnly (h : Heap) (p : Page) (a : Nat)
    (hord : ObjectsOrdered h p) (hinside : ∀ o ∈ p.objects, OnPage h p o)
    (hword : p.area_end < 2 ^ 64) (hex : ExactAt p a)
    (hgood : ¬ (p.FindNearestPrecedingObject a ≠ p.area_start ∧
      a = wrapAdd (p.FindNearestPrecedingObject a)
        (h.size_at (p.FindNearestPrecedingObject a)))) :
    (CheckOldSpacePage h a p).1 = (CheckOldSpacePageScanOnly h a p).1 ∧
      roots (CheckOldSpacePage h a p).2 = roots (CheckOldSpacePageScanOnly h a p).2 := by
  by_cases hin : p.Contains a
  · have hin' := hin
    unfold Page.Contains at hin'
    have hso : CheckOldSpacePageScanOnly h a p =
        scanObjects h a (AdvanceToNextPageOffset p p.area_start) := by
      unfold CheckOldSpacePageScanOnly
      rw [if_neg (by omega)]
    rw [hso]
    by_cases hne : p.FindNearestPrecedingObject a = p.area_start
    · rw [CheckOldSpacePage_slow h a p hin (fun hc => hc.1 hne), hne]
      exact ⟨rfl, rfl⟩
    · unfold ExactAt at hex
      rcases hex with ⟨hm, hle, _⟩ | ⟨_, hst⟩
      · obtain ⟨pre, post, hobjs⟩ := List.append_of_mem hm
        have hle' : (HeapObject.FromAddress (p.FindNearestPrecedingObject a)).address ≤ a := hle
        have hstart := (hinside _ hm).2.1
        rw [scanObjects_advance h p pre _ post a _ hobjs hord hle' (by omega) hstart]
        by_cases hc : a ≤ wrapAdd (p.FindNearestPrecedingObject a)
            (h.size_at (p.FindNearestPrecedingObject a))
        · rw [CheckOldSpacePage_fast h a p hin hne hc, scanObjects_cons,
            if_neg (by simp only [HeapObject.FromAddress]; omega)]
          have hlt : a < wrapAdd (HeapObject.FromAddress (p.FindNearestPrecedingObject a)).address
              (HeapObject.Size h (HeapObject.FromAddress (p.FindNearestPrecedingObject a))) := by
            show a < wrapAdd (p.FindNearestPrecedingObject a)
              (h.size_at (p.FindNearestPrecedingObject a))
            have : a ≠ wrapAdd (p.FindNearestPrecedingObject a)
                (h.size_at (p.FindNearestPrecedingObject a)) := fun he => hgood ⟨hne, he⟩
            omega
          rw [if_pos hlt]
          exact ⟨rfl, rfl⟩
        · have hadv : scanObjects h a
                (AdvanceToNextPageOffset p (p.FindNearestPrecedingObject a)) =
              scanObjects h a (HeapObject.FromAddress (p.FindNearestPrecedingObject a) :: post) :=
            scanObjects_advance h p pre _ post a _ hobjs hord hle' (by omega) (Nat.le_refl _)
          rw [CheckOldSpacePage_slow h a p hin (fun hc' => hc hc'.2), hadv]
          exact ⟨rfl, rfl⟩
      · exact absurd hst hne
  · rw [CheckOldSpacePage_outside h a p hin]
    simp only [Page.Contains, not_and, not_lt] at hin
    unfold CheckOldSpacePageScanOnly
    rw [if_pos (by omega)]
    exact ⟨rfl, rfl⟩

/-! ## The claims -/

/-- C1, as amended (containment completeness): in a heap whose old-space pages have
pairwise disjoint areas, for a page `P` of the old space whose objects are listed in
ascending order without overlap and whose object-start bitmap is exact at `a`, for an
object `O` of `P` lying inside the area of `P` and an address `a` with
`O.start ≤ a < O.start + O.size` that passes the range filter
(`limit() ≤ a ≤ top()`), `VisitPointer a` reports exactly one root, `O.start`.
The area of the page ends at an address (a 64-bit word). -/
theorem VisitPointer_containment (h : Heap) (P : Page) (O : HeapObject) (a : Nat)
    (hP : P ∈ h.old_space.pages) (hdisj : OldPagesDisjoint h)
    (hord : ObjectsOrdered h P) (hO : OnPage h P O) (hex : ExactAt P a)
    (hword : P.area_end < 2 ^ 64)
    (h1 : O.address ≤ a) (h2 : a < O.address + O.Size h)
    (hlimit : h.old_space.limit ≤ a) (htop : a ≤ h.old_space.top) :
    roots (VisitPointer h a).2 = [O.address] := by
  obtain ⟨hmem, hstart, hend⟩ := hO
  obtain ⟨opre, opost, hobjs⟩ := List.append_of_mem hmem
  obtain ⟨pre, post, hps⟩ := List.append_of_mem hP
  have hin : P.Contains a := ⟨by omega, by omega⟩
  obtain ⟨hc1, _, _, hc2⟩ :=
    CheckOldSpacePage_inside h P opre O opost a hobjs hord hex hstart hend hword h1 h2
  have hloop := oldSpaceLoop_hit h a pre P post 0 (hdisj.others hps hin).1 hc1
  rw [← hps] at hloop
  rw [VisitPointer_pass h a hlimit htop, hloop]
  simp only [if_true]
  rw [roots_append, hc2]
  rfl

theorem VisitPointer_containment_witness :
    roots (VisitPointer exampleHeap 0x1010).2 = [0x1000] :=
  VisitPointer_containment exampleHeap examplePage ⟨0x1000⟩ 0x1010
    (by simp [exampleHeap]) (by decide) (by decide) (by decide) (by decide) (by decide)
    (by decide) (by decide) (by decide) (by decide)

/-- C1, as stated, fails.  First, on a heap whose old space has the bounds of a linear
allocation area (`top() = 0x1040 < limit() = 0x2000`), every page is well formed with an
exact index, 0x1010 lies in the object at 0x1000, and `VisitPointer 0x1010` reports
nothing: the range filter rejects the word.  Second, on a heap whose old space lists two
well-formed pages over the same area, 0x1018 lies in the object at 0x1010 of the second
page and `VisitPointer 0x1018` reports 0x1000, found on the first page. -/
theorem VisitPointer_containment_counterexample :
    ((∀ p ∈ linearAreaHeap.old_space.pages,
        ObjectsOrdered linearAreaHeap p ∧ (∀ o ∈ p.objects, OnPage linearAreaHeap p o) ∧
          ∀ a, ExactAt p a) ∧
      examplePage ∈ linearAreaHeap.old_space.pages ∧
      OnPage linearAreaHeap examplePage ⟨0x1000⟩ ∧
      (0x1000 ≤ 0x1010 ∧ 0x1010 < 0x1000 + HeapObject.Size linearAreaHeap ⟨0x1000⟩) ∧
      roots (VisitPointer linearAreaHeap 0x1010).2 = []) ∧
    ((∀ p ∈ overlapHeap.old_space.pages,
        ObjectsOrdered overlapHeap p ∧ (∀ o ∈ p.objects, OnPage overlapHeap p o) ∧
          ∀ a, ExactAt p a) ∧
      overlapPage ∈ overlapHeap.old_space.pages ∧
      OnPage overlapHeap overlapPage ⟨0x1010⟩ ∧
      (0x1010 ≤ 0x1018 ∧ 0x1018 < 0x1010 + HeapObject.Size overlapHeap ⟨0x1010⟩) ∧
      (overlapHeap.old_space.limit ≤ 0x1018 ∧ 0x1018 ≤ overlapHeap.old_space.top) ∧
      roots (VisitPointer overlapHeap 0x1018).2 = [0x1000]) := by
  refine ⟨⟨?_, by simp [linearAreaHeap, exampleHeap], by decide, by decide, by decide⟩,
    ⟨?_, by simp [overlapHeap], by decide, by decide, by decide, by decide⟩⟩
  · intro p hp
    simp only [linearAreaHeap, exampleHeap, List.mem_singleton] at hp
    subst hp
    exact ⟨by decide, by decide, exactIndex_exactAt examplePage rfl⟩
  · intro p hp
    simp only [overlapHeap, List.mem_cons, List.mem_singleton, List.not_mem_nil,
      or_false] at hp
    rcases hp with rfl | rfl
    · exact ⟨by decide, by decide, exactIndex_exactAt _ rfl⟩
    · exact ⟨by decide, by decide, exactIndex_exactAt overlapPage rfl⟩

/-- C2 (boundary inclusivity) at the failing input: on the example page (objects at
0x1000, size 0x20, and at 0x1030, size 0x10, exact index), the address 0x1040 is the end
of the object at 0x1030, lies inside the page, and no object starts there; yet
`CheckOldSpacePage` returns true and reports 0x1030, through the fast path, which
compares with `<=`.  The end 0x1020 of the object at `area_start`, which goes through the
scan and its `<`, is rejected. -/
theorem CheckOldSpacePage_object_end :
    ObjectsOrdered exampleHeap examplePage ∧
    OnPage exampleHeap examplePage ⟨0x1030⟩ ∧
    ExactAt examplePage 0x1040 ∧
    0x1030 + HeapObject.Size exampleHeap ⟨0x1030⟩ = 0x1040 ∧
    0x1040 < examplePage.area_end ∧
    (∀ o ∈ examplePage.objects, o.address ≠ 0x1040) ∧
    CheckOldSpacePage exampleHeap 0x1040 examplePage =
      (true, [Event.FindNearestPrecedingObject 0x1040,
        Event.VisitRootPointer Root.kHandleScope none 0x1030]) ∧
    CheckOldSpacePage exampleHeap 0x1020 examplePage =
      (false, [Event.FindNearestPrecedingObject 0x1020,
        Event.AdvanceToNextPageOffset 0x1000]) := by
  decide

/-- C3 (hole rejection): in a heap whose pages, old space and large-object space, have
pairwise disjoint areas, for a page `P` of the old space whose objects are listed in
ascending order without overlap, two adjacent objects `O1`, `O2` of `P` and an address
`a` with `O1.start + O1.size < a < O2.start`, whenever the object-start bitmap answers at
`a` with `area_start` or with the start of an object of the page at or before `a`,
`VisitPointer a` reports no root, sets no flag and leaves the heap as it was.  The area
of the page ends at an address (a 64-bit word). -/
theorem VisitPointer_hole (h : Heap) (P : Page) (pre : List HeapObject) (O1 O2 : HeapObject)
    (post : List HeapObject) (a : Nat)
    (hdisj : PagesDisjoint h) (hP : P ∈ h.old_space.pages) (hord : ObjectsOrdered h P)
    (hobjs : P.objects = pre ++ O1 :: O2 :: post)
    (hO1 : OnPage h P O1) (hO2 : OnPage h P O2)
    (h1 : O1.address + O1.Size h < a) (h2 : a < O2.address)
    (hidx : P.FindNearestPrecedingObject a = P.area_start ∨
      ∃ o ∈ P.objects, o.address = P.FindNearestPrecedingObject a ∧ o.address ≤ a)
    (hword : P.area_end < 2 ^ 64) :
    roots (VisitPointer h a).2 = [] ∧ pins (VisitPointer h a).2 = [] ∧
      (VisitPointer h a).1 = h := by
  by_cases hf : a > h.old_space.top ∨ a < h.old_space.limit
  · rw [VisitPointer_filtered h a hf]
    exact ⟨rfl, rfl, rfl⟩
  · obtain ⟨ppre, ppost, hps⟩ := List.append_of_mem hP
    have hin : P.Contains a := ⟨by have := hO1.2.1; omega, by have := hO2.2.2; omega⟩
    have hc := CheckOldSpacePage_hole h P pre O1 O2 post a hobjs hord hidx hword h1 h2
    obtain ⟨c1, c2, _⟩ := CheckOldSpacePage_false h a P hc
    obtain ⟨o1, o2⟩ := hdisj.old.others hps hin
    have hloop := oldSpaceLoop_miss h a ppre P ppost 0 o1 o2 hc
    rw [← hps] at hloop
    have hlo : ∀ L ∈ h.lo_space, ¬ L.Contains a := fun L hL =>
      rangesDisjoint_not_mem (hdisj.old_large hP hL) hin.1 hin.2
    rw [VisitPointer_pass h a (by omega) (by omega), hloop, loSpaceLoop_outside a _ hlo]
    simp only [List.append_nil]
    exact ⟨c1, c2, rfl⟩

theorem VisitPointer_hole_witness :
    roots (VisitPointer exampleHeap 0x1025).2 = [] ∧ pins (VisitPointer exampleHeap 0x1025).2 = [] ∧
      (VisitPointer exampleHeap 0x1025).1 = exampleHeap :=
  VisitPointer_hole exampleHeap examplePage [] ⟨0x1000⟩ ⟨0x1030⟩ [] 0x1025
    (by decide) (by simp [exampleHeap]) (by decide) rfl (by decide) (by decide)
    (by decide) (by decide) (by decide) (by decide)

/-- C4 (out-of-range rejection): for every heap and every address that lies in the area of
no page of the old space and of no large page, `VisitPointer` makes no call at all (no root
notification, no query of an object-start bitmap, no object iterator, no flag set) and
leaves the heap as it was. -/
theorem VisitPointer_out_of_range (h : Heap) (a : Nat)
    (hold : ∀ p ∈ h.old_space.pages, ¬ p.Contains a)
    (hlo : ∀ L ∈ h.lo_space, ¬ L.Contains a) :
    roots (VisitPointer h a).2 = [] ∧ pins (VisitPointer h a).2 = [] ∧
      queries (VisitPointer h a).2 = [] ∧ (VisitPointer h a).2 = [] ∧
      (VisitPointer h a).1 = h := by
  have key : VisitPointer h a = (h, []) := by
    by_cases hf : a > h.old_space.top ∨ a < h.old_space.limit
    · exact VisitPointer_filtered h a hf
    · rw [VisitPointer_pass h a (by omega) (by omega),
        oldSpaceLoop_outside h a _ hold 0, loSpaceLoop_outside a _ hlo]
      rfl
  rw [key]
  exact ⟨rfl, rfl, rfl, rfl, rfl⟩

theorem VisitPointer_out_of_range_witness :
    roots (VisitPointer exampleHeap 0x3000).2 = [] ∧ pins (VisitPointer exampleHeap 0x3000).2 = [] ∧
      queries (VisitPointer exampleHeap 0x3000).2 = [] ∧ (VisitPointer exampleHeap 0x3000).2 = [] ∧
      (VisitPointer exampleHeap 0x3000).1 = exampleHeap :=
  VisitPointer_out_of_range exampleHeap 0x3000 (by decide) (by decide)

/-- C5, as amended (large-object exactness): in a heap whose pages have pairwise disjoint
areas, for a large page over `[S, E)`, `VisitPointer a` reports exactly one root, `S`, and
leaves the heap as it was, for every `a` with `S ≤ a < E` that passes the range filter of
the old space (`limit() ≤ a ≤ top()`); and `VisitPointer E` reports no root when `E` lies
in no other page. -/
theorem VisitPointer_large_object (h : Heap) (L : LargePage)
    (hdisj : PagesDisjoint h) (hL : L ∈ h.lo_space) :
    (∀ a, L.area_start ≤ a → a < L.area_end →
      h.old_space.limit ≤ a → a ≤ h.old_space.top →
      roots (VisitPointer h a).2 = [L.area_start] ∧ (VisitPointer h a).1 = h) ∧
    ((∀ p ∈ h.old_space.pages, ¬ p.Contains L.area_end) →
      (∀ q ∈ h.lo_space, q ≠ L → ¬ q.Contains L.area_end) →
      roots (VisitPointer h L.area_end).2 = []) := by
  constructor
  · intro a h1 h2 hlimit htop
    obtain ⟨lpre, lpost, hls⟩ := List.append_of_mem hL
    have hin : L.Contains a := ⟨h1, h2⟩
    have hold : ∀ p ∈ h.old_space.pages, ¬ p.Contains a := fun p hp =>
      rangesDisjoint_not_mem (rangesDisjoint_symm (hdisj.old_large hp hL)) h1 h2
    have hlo : loSpaceLoop a h.lo_space = VisitRoot L.area_start := by
      rw [hls]
      exact loSpaceLoop_hit a lpre L lpost (hdisj.large_before hls hin) hin
    rw [VisitPointer_pass h a hlimit htop, oldSpaceLoop_outside h a _ hold 0, hlo]
    exact ⟨rfl, rfl⟩
  · intro hold hothers
    have hlo : ∀ q ∈ h.lo_space, ¬ q.Contains L.area_end := by
      intro q hq
      by_cases hqL : q = L
      · rw [hqL]
        unfold LargePage.Contains
        omega
      · exact hothers q hq hqL
    by_cases hf : L.area_end > h.old_space.top ∨ L.area_end < h.old_space.limit
    · rw [VisitPointer_filtered h _ hf]
      rfl
    · rw [VisitPointer_pass h _ (by omega) (by omega),
        oldSpaceLoop_outside h _ _ hold 0, loSpaceLoop_outside _ _ hlo]
      rfl

theorem VisitPointer_large_object_witness :
    (roots (VisitPointer wideHeap 0x8010).2 = [0x8000] ∧
      (VisitPointer wideHeap 0x8010).1 = wideHeap) ∧
    roots (VisitPointer wideHeap 0x9000).2 = [] :=
  ⟨(VisitPointer_large_object wideHeap ⟨0x8000, 0x9000, false⟩ (by decide)
      (by simp [wideHeap, exampleHeap])).1 0x8010 (by decide) (by decide) (by decide)
      (by decide),
    (VisitPointer_large_object wideHeap ⟨0x8000, 0x9000, false⟩ (by decide)
      (by simp [wideHeap, exampleHeap])).2 (by decide) (by decide)⟩

/-- C5, as stated, fails: the pages of the example heap are pairwise disjoint, 0x8010 lies
in its large page over `[0x8000, 0x9000)`, and `VisitPointer 0x8010` reports no root,
because 0x8010 is above `top()` of the old space and the range filter rejects it. -/
theorem VisitPointer_large_object_counterexample :
    PagesDisjoint exampleHeap ∧
      (⟨0x8000, 0x9000, false⟩ : LargePage) ∈ exampleHeap.lo_space ∧
      (0x8000 ≤ 0x8010 ∧ 0x8010 < 0x9000) ∧
      roots (VisitPointer exampleHeap 0x8010).2 = [] := by
  decide

/-- C6 (end-to-end example): on a page of the old space with `area_start = 0x1000`,
`area_end > 0x1040`, exactly the objects at 0x1000 (size 0x20) and at 0x1030 (size 0x10)
and an exact object-start index, `CheckOldSpacePage` returns true and reports 0x1000 for
the word 0x1010, returns false and reports nothing for 0x1025, reports 0x1030 for 0x1030,
reports 0x1030 for 0x1040, and returns false and reports nothing for 0x0FF0. -/
theorem CheckOldSpacePage_example (h : Heap) (page : Page)
    (hstart : page.area_start = 0x1000) (hend : 0x1040 < page.area_end)
    (hobjs : page.objects = [⟨0x1000⟩, ⟨0x1030⟩])
    (hs1 : h.size_at 0x1000 = 0x20) (hs2 : h.size_at 0x1030 = 0x10)
    (hexact : ∀ a, ExactAt page a) :
    ((CheckOldSpacePage h 0x1010 page).1 = true ∧
      roots (CheckOldSpacePage h 0x1010 page).2 = [0x1000]) ∧
    ((CheckOldSpacePage h 0x1025 page).1 = false ∧
      roots (CheckOldSpacePage h 0x1025 page).2 = []) ∧
    ((CheckOldSpacePage h 0x1030 page).1 = true ∧
      roots (CheckOldSpacePage h 0x1030 page).2 = [0x1030]) ∧
    ((CheckOldSpacePage h 0x1040 page).1 = true ∧
      roots (CheckOldSpacePage h 0x1040 page).2 = [0x1030]) ∧
    ((CheckOldSpacePage h 0x0FF0 page).1 = false ∧
      roots (CheckOldSpacePage h 0x0FF0 page).2 = []) := by
  have e1 := (exactAt_example hobjs hstart (hexact 0x1010)).1 (by omega) (by omega)
  have e2 := (exactAt_example hobjs hstart (hexact 0x1025)).1 (by omega) (by omega)
  have e3 := (exactAt_example hobjs hstart (hexact 0x1030)).2 (by omega)
  have e4 := (exactAt_example hobjs hstart (hexact 0x1040)).2 (by omega)
  have hend1 : ¬ page.area_end ≤ 0x1010 := by omega
  have hend2 : ¬ page.area_end ≤ 0x1025 := by omega
  have hend3 : ¬ page.area_end ≤ 0x1030 := by omega
  have hend4 : ¬ page.area_end ≤ 0x1040 := by omega
  refine ⟨?_, ?_, ?_, ?_, ?_⟩
  · simp [CheckOldSpacePage, hstart, hend1, e1, AdvanceToNextPageOffset, hobjs, scanObjects,
      HeapObject.FromAddress, HeapObject.Size, hs1, hs2, wrapAdd, VisitRoot, roots]
  · simp [CheckOldSpacePage, hstart, hend2, e2, AdvanceToNextPageOffset, hobjs, scanObjects,
      HeapObject.FromAddress, HeapObject.Size, hs1, hs2, wrapAdd, VisitRoot, roots]
  · simp [CheckOldSpacePage, hstart, hend3, e3, AdvanceToNextPageOffset, hobjs, scanObjects,
      HeapObject.FromAddress, HeapObject.Size, hs1, hs2, wrapAdd, VisitRoot, roots]
  · simp [CheckOldSpacePage, hstart, hend4, e4, AdvanceToNextPageOffset, hobjs, scanObjects,
      HeapObject.FromAddress, HeapObject.Size, hs1, hs2, wrapAdd, VisitRoot, roots]
  · simp [CheckOldSpacePage, hstart, roots]

theorem CheckOldSpacePage_example_witness :
    ((CheckOldSpacePage exampleHeap 0x1010 examplePage).1 = true ∧
      roots (CheckOldSpacePage exampleHeap 0x1010 examplePage).2 = [0x1000]) ∧
    ((CheckOldSpacePage exampleHeap 0x1025 examplePage).1 = false ∧
      roots (CheckOldSpacePage exampleHeap 0x1025 examplePage).2 = []) ∧
    ((CheckOldSpacePage exampleHeap 0x1030 examplePage).1 = true ∧
      roots (CheckOldSpacePage exampleHeap 0x1030 examplePage).2 = [0x1030]) ∧
    ((CheckOldSpacePage exampleHeap 0x1040 examplePage).1 = true ∧
      roots (CheckOldSpacePage exampleHeap 0x1040 examplePage).2 = [0x1030]) ∧
    ((CheckOldSpacePage exampleHeap 0x0FF0 examplePage).1 = false ∧
      roots (CheckOldSpacePage exampleHeap 0x0FF0 examplePage).2 = []) :=
  CheckOldSpacePage_example exampleHeap examplePage rfl (by decide) rfl rfl rfl
    (exactIndex_exactAt examplePage rfl)

/-- C7 (bounded side effects): one call of `VisitPointer` sends at most one root
notification and sets at most one flag, and the heap after the call is the heap before
it, or the heap before it with the PINNED flag of one page of the old space set:
nothing else of the heap (page lists, page bounds, objects, object-start bitmaps, large
pages, allocation bounds, object sizes) differs. -/
theorem VisitPointer_bounded_effects (h : Heap) (w : Nat) :
    (notifications (VisitPointer h w).2).length ≤ 1 ∧
    (roots (VisitPointer h w).2).length ≤ 1 ∧
    (pins (VisitPointer h w).2).length ≤ 1 ∧
    ((VisitPointer h w).1 = h ∨
      ∃ pre P post, h.old_space.pages = pre ++ P :: post ∧
        (VisitPointer h w).1 =
          { h with old_space :=
              { h.old_space with pages := pre ++ { P with pinned := true } :: post } }) := by
  by_cases hf : w > h.old_space.top ∨ w < h.old_space.limit
  · rw [VisitPointer_filtered h w hf]
    exact ⟨Nat.zero_le _, Nat.zero_le _, Nat.zero_le _, Or.inl rfl⟩
  · by_cases ht : (oldSpaceLoop h w 0 h.old_space.pages).1 = true
    · obtain ⟨pre, P, post, tr0, e1, _, e3, e4, e5, e6, e7⟩ :=
        VisitPointer_hit h w (by omega) (by omega) ht
      obtain ⟨q, v, c1, c2, c3, c4⟩ := CheckOldSpacePage_true h w P e3
      rw [e4, c1]
      refine ⟨?_, ?_, ?_, Or.inr ⟨pre, P, post, e1, rfl⟩⟩
      · simp [notifications_append, e7, c4, notifications_VisitRoot, notifications]
      · simp [roots_append, e5, c2, roots_VisitRoot, roots]
      · simp [pins_append, e6, c3, pins_VisitRoot, pins]
    · simp only [Bool.not_eq_true] at ht
      obtain ⟨_, e2, e3, e4, e5⟩ := VisitPointer_miss h w (by omega) (by omega) ht
      rw [e2]
      refine ⟨?_, ?_, ?_, Or.inl rfl⟩
      · rw [notifications_append, e5]
        rcases loSpaceLoop_cases w h.lo_space with ⟨_, h2⟩ | ⟨_, _, _, _, _, _, h4⟩
        · rw [h2]; simp [notifications]
        · rw [h4]; simp [notifications_VisitRoot]
      · rw [roots_append, e3]
        simpa using roots_loSpaceLoop_length w h.lo_space
      · rw [pins_append, e4, pins_loSpaceLoop]
        simp

/-- C8 (pin on normal-space match): when a call of `VisitPointer` reports a root and `P` is
the page of the old space on which `CheckOldSpacePage` returned true (the pages before it
having returned false), then after the call `P` stands in the heap with its PINNED flag
set, and the calls of the run end with the root notification followed by the setting of
the flag of `P`, no flag being set before; and when the call reports no root, the heap,
so every PINNED flag, is unchanged. -/
theorem VisitPointer_pins_matched_page (h : Heap) (w : Nat) :
    (∀ pre P post, h.old_space.pages = pre ++ P :: post →
      (∀ p ∈ pre, (CheckOldSpacePage h w p).1 = false) →
      (CheckOldSpacePage h w P).1 = true →
      roots (VisitPointer h w).2 ≠ [] →
      (VisitPointer h w).1.old_space.pages = pre ++ { P with pinned := true } :: post ∧
      ∃ tr k s v, (VisitPointer h w).2 =
        tr ++ [Event.VisitRootPointer k s v, Event.SetFlag pre.length] ∧ pins tr = []) ∧
    (roots (VisitPointer h w).2 = [] →
      (VisitPointer h w).1 = h ∧ (VisitPointer h w).1.pinnedFlags = h.pinnedFlags) := by
  constructor
  · intro pre P post hps hpre hP hroot
    by_cases hf : w > h.old_space.top ∨ w < h.old_space.limit
    · rw [VisitPointer_filtered h w hf] at hroot
      exact absurd rfl hroot
    · have hloop := oldSpaceLoop_first h w pre P post 0 hpre hP
      rw [← hps, Nat.zero_add] at hloop
      have hpins := (oldSpaceLoop_false h w pre 0 (oldSpaceLoop_all_false h w pre 0 hpre)).2.2.1
      obtain ⟨q, v, c1, _, c3, _⟩ := CheckOldSpacePage_true h w P hP
      rw [VisitPointer_pass h w (by omega) (by omega), hloop]
      simp only [if_true]
      refine ⟨trivial, (oldSpaceLoop h w 0 pre).2.2 ++ q, Root.kHandleScope, none, v, ?_, ?_⟩
      · rw [c1]
        simp [VisitRoot, HeapObject.FromAddress]
      · rw [pins_append, hpins, c3]
        rfl
  · intro hroot
    have key : (VisitPointer h w).1 = h := by
      by_cases hf : w > h.old_space.top ∨ w < h.old_space.limit
      · rw [VisitPointer_filtered h w hf]
      · by_cases ht : (oldSpaceLoop h w 0 h.old_space.pages).1 = true
        · obtain ⟨pre, P, post, tr0, e1, _, e3, e4, e5, e6, e7⟩ :=
            VisitPointer_hit h w (by omega) (by omega) ht
          obtain ⟨q, v, c1, c2, c3, c4⟩ := CheckOldSpacePage_true h w P e3
          rw [e4, c1] at hroot
          simp [roots_append, roots_VisitRoot] at hroot
        · simp only [Bool.not_eq_true] at ht
          rw [(VisitPointer_miss h w (by omega) (by omega) ht).2.1]
    rw [key]
    exact ⟨rfl, rfl⟩

theorem VisitPointer_pins_matched_page_witness :
    ((VisitPointer exampleHeap 0x1010).1.old_space.pages =
        [] ++ { examplePage with pinned := true } :: [] ∧
      ∃ tr k s v, (VisitPointer exampleHeap 0x1010).2 =
        tr ++ [Event.VisitRootPointer k s v, Event.SetFlag ([] : List Page).length] ∧
          pins tr = []) ∧
    ((VisitPointer exampleHeap 0x1025).1 = exampleHeap ∧
      (VisitPointer exampleHeap 0x1025).1.pinnedFlags = exampleHeap.pinnedFlags) :=
  ⟨(VisitPointer_pins_matched_page exampleHeap 0x1010).1 [] examplePage [] rfl
      (by simp) (by decide) (by decide),
    (VisitPointer_pins_matched_page exampleHeap 0x1025).2 (by decide)⟩

/-- C9, as amended (root notification contract): every notification `VisitPointer` sends
to the sink is tagged `Root::kHandleScope` (the handle-scope kind, not the
conservative-stack kind), carries a null slot address, and carries as its value the
address the word was resolved to. -/
theorem VisitPointer_notification_contract (h : Heap) (w : Nat) (k : Root) (s : Option Nat)
    (v : Nat) (hmem : Event.VisitRootPointer k s v ∈ (VisitPointer h w).2) :
    k = Root.kHandleScope ∧ s = none ∧ Resolved h w v := by
  rw [mem_notifications] at hmem
  rcases notifications_VisitPointer h w with hn | ⟨v', hres, hn⟩
  · rw [hn] at hmem
    cases hmem
  · rw [hn, List.mem_singleton] at hmem
    cases hmem
    exact ⟨rfl, rfl, hres⟩

theorem VisitPointer_notification_contract_witness :
    Root.kHandleScope = Root.kHandleScope ∧ (none : Option Nat) = none ∧
      Resolved exampleHeap 0x1010 0x1000 :=
  VisitPointer_notification_contract exampleHeap 0x1010 Root.kHandleScope none 0x1000
    (by decide)

/-- C9, as stated, fails: on the example heap the notification for the word 0x1010 is
tagged `Root::kHandleScope`, which is not the conservative-stack kind. -/
theorem VisitPointer_notification_kind_counterexample :
    ¬ ∀ k s v, Event.VisitRootPointer k s v ∈ (VisitPointer exampleHeap 0x1010).2 →
      k = Root.ConservativeStackRoot := by
  intro hall
  exact absurd (hall Root.kHandleScope none 0x1000 (by decide)) (by decide)

/-- C10 (determinism and pin idempotence): a second call of `VisitPointer` on the same
word, made on the heap the first call left, makes the same calls as the first (so the
same root notification, or none) and leaves the heap it found, every PINNED flag
included. -/
theorem VisitPointer_twice (h : Heap) (w : Nat) :
    (VisitPointer (VisitPointer h w).1 w).2 = (VisitPointer h w).2 ∧
    notifications (VisitPointer (VisitPointer h w).1 w).2 =
      notifications (VisitPointer h w).2 ∧
    (VisitPointer (VisitPointer h w).1 w).1 = (VisitPointer h w).1 := by
  have key : VisitPointer (VisitPointer h w).1 w = VisitPointer h w := by
    by_cases hf : w > h.old_space.top ∨ w < h.old_space.limit
    · rw [VisitPointer_filtered h w hf]
      exact VisitPointer_filtered h w hf
    · have e := VisitPointer_pass h w (by omega) (by omega)
      have hidem := oldSpaceLoop_idem h
        { h with old_space :=
            { h.old_space with pages := (oldSpaceLoop h w 0 h.old_space.pages).2.1 } }
        rfl w h.old_space.pages 0
      by_cases ht : (oldSpaceLoop h w 0 h.old_space.pages).1 = true
      · rw [if_pos ht] at e
        rw [e]
        simp only
        rw [VisitPointer_pass _ w (by simpa using Nat.le_of_not_lt (fun x => hf (Or.inr x)))
          (by simpa using Nat.le_of_not_lt (fun x => hf (Or.inl x)))]
        simp only
        rw [hidem, if_pos ht]
      · rw [if_neg ht] at e
        rw [e]
        simp only
        rw [VisitPointer_pass _ w (by simpa using Nat.le_of_not_lt (fun x => hf (Or.inr x)))
          (by simpa using Nat.le_of_not_lt (fun x => hf (Or.inl x)))]
        simp only
        rw [hidem, if_neg ht]
  rw [key]
  exact ⟨rfl, rfl, rfl⟩

/-- C11 (pins are never cleared): for every heap, every word and every finite sequence
of words, a page (of the old space or of the large-object space, at position `i` among
all pages) whose PINNED flag is set before a call of `VisitPointer` still has it set
after the call, and so has it set after a whole scan of the sequence. -/
theorem VisitPointer_keeps_pins (h : Heap) (i : Nat)
    (hpin : h.pinnedFlags[i]? = some true) :
    (∀ w, (VisitPointer h w).1.pinnedFlags[i]? = some true) ∧
    (∀ ws, (scanWords h ws).1.pinnedFlags[i]? = some true) :=
  ⟨fun w => pinnedFlags_VisitPointer h w i hpin, fun ws => pinnedFlags_scanWords ws h i hpin⟩

theorem VisitPointer_keeps_pins_witness :
    (VisitPointer (VisitPointer exampleHeap 0x1010).1 0x1030).1.pinnedFlags[0]? = some true ∧
    (scanWords (VisitPointer exampleHeap 0x1010).1 [0x1025, 0x3000, 0x8010]).1.pinnedFlags[0]?
      = some true :=
  ⟨(VisitPointer_keeps_pins (VisitPointer exampleHeap 0x1010).1 0 (by decide)).1 0x1030,
    (VisitPointer_keeps_pins (VisitPointer exampleHeap 0x1010).1 0 (by decide)).2
      [0x1025, 0x3000, 0x8010]⟩

/-- C13 (coarse-filter consequence): `VisitPointer w` reports a root, sets a flag or
changes the heap only if `limit() ≤ w ≤ top()` for the old space; hence in a heap where
`top() < limit()` it reports no root, sets no flag and leaves the heap as it was,
whatever the word. -/
theorem VisitPointer_only_inside_filter (h : Heap) (w : Nat) :
    ((roots (VisitPointer h w).2 ≠ [] ∨ pins (VisitPointer h w).2 ≠ [] ∨
        (VisitPointer h w).1.pinnedFlags ≠ h.pinnedFlags) →
      h.old_space.limit ≤ w ∧ w ≤ h.old_space.top) ∧
    (h.old_space.top < h.old_space.limit →
      roots (VisitPointer h w).2 = [] ∧ pins (VisitPointer h w).2 = [] ∧
        (VisitPointer h w).1 = h) := by
  constructor
  · intro heff
    by_contra hnot
    have hf : w > h.old_space.top ∨ w < h.old_space.limit := by omega
    rw [VisitPointer_filtered h w hf] at heff
    rcases heff with he | he | he <;> exact he rfl
  · intro hlt
    have hf : w > h.old_space.top ∨ w < h.old_space.limit := by omega
    rw [VisitPointer_filtered h w hf]
    exact ⟨rfl, rfl, rfl⟩

theorem VisitPointer_only_inside_filter_witness :
    (exampleHeap.old_space.limit ≤ 0x1010 ∧ 0x1010 ≤ exampleHeap.old_space.top) ∧
    (roots (VisitPointer linearAreaHeap 0x1040).2 = [] ∧
      pins (VisitPointer linearAreaHeap 0x1040).2 = [] ∧
      (VisitPointer linearAreaHeap 0x1040).1 = linearAreaHeap) :=
  ⟨(VisitPointer_only_inside_filter exampleHeap 0x1010).1 (Or.inl (by decide)),
    (VisitPointer_only_inside_filter linearAreaHeap 0x1040).2 (by decide)⟩

/-- C15 (soundness of reports): in a heap where the object-start bitmap of every page of
the old space answers, at the word `w`, with `area_start` or with the start of an object
of that page at or before `w`, every root `r` that `VisitPointer w` reports satisfies
`r ≤ w` and is the start of an object listed on a page of the old space whose area
contains `w`, or the `area_start` of a large page whose area contains `w`; and a report
is made only for a word that passed the range filter (`limit() ≤ w ≤ top()`). -/
theorem VisitPointer_sound (h : Heap) (w r : Nat)
    (hidx : ∀ p ∈ h.old_space.pages,
      p.FindNearestPrecedingObject w = p.area_start ∨
        ∃ o ∈ p.objects, o.address = p.FindNearestPrecedingObject w ∧ o.address ≤ w)
    (hr : r ∈ roots (VisitPointer h w).2) :
    r ≤ w ∧
    ((∃ p ∈ h.old_space.pages, p.Contains w ∧ HeapObject.FromAddress r ∈ p.objects) ∨
      ∃ L ∈ h.lo_space, L.Contains w ∧ r = L.area_start) ∧
    (h.old_space.limit ≤ w ∧ w ≤ h.old_space.top) := by
  have hfilter : h.old_space.limit ≤ w ∧ w ≤ h.old_space.top := by
    by_contra hnot
    have hf : w > h.old_space.top ∨ w < h.old_space.limit := by omega
    rw [VisitPointer_filtered h w hf] at hr
    cases hr
  rcases resolved_of_mem_roots h w r hr with ⟨p, hp, hin, hres⟩ | ⟨L, hL, hin, hres⟩
  · rcases hres with ⟨he, hne, _⟩ | ⟨o, ho, hoa, hle, _⟩
    · rcases hidx p hp with hi | ⟨o, ho, hoa, hle⟩
      · exact absurd (he.trans hi) hne
      · rw [← he] at hoa
        refine ⟨by omega, Or.inl ⟨p, hp, hin, ?_⟩, hfilter⟩
        rw [← hoa]
        exact ho
    · refine ⟨hle, Or.inl ⟨p, hp, hin, ?_⟩, hfilter⟩
      rw [← hoa]
      exact ho
  · refine ⟨?_, Or.inr ⟨L, hL, hin, hres⟩, hfilter⟩
    rw [hres]
    exact hin.1

theorem VisitPointer_sound_witness :
    0x1000 ≤ 0x1010 ∧
    ((∃ p ∈ exampleHeap.old_space.pages,
        p.Contains 0x1010 ∧ HeapObject.FromAddress 0x1000 ∈ p.objects) ∨
      ∃ L ∈ exampleHeap.lo_space, L.Contains 0x1010 ∧ 0x1000 = L.area_start) ∧
    (exampleHeap.old_space.limit ≤ 0x1010 ∧ 0x1010 ≤ exampleHeap.old_space.top) :=
  VisitPointer_sound exampleHeap 0x1010 0x1000 (by decide) (by decide)

/-- C16 (large-object path): for every heap and every word `w` with
`limit() ≤ w ≤ top()` on which `CheckOldSpacePage` returns false for every page of the
old space, `VisitPointer w` reports exactly the `area_start` of the first large page, in
iteration order, whose area contains `w`, and reports nothing when no large page
contains `w`; in both cases it sets no flag and leaves the heap, so every PINNED flag,
as it was. -/
theorem VisitPointer_large_path (h : Heap) (w : Nat)
    (hlimit : h.old_space.limit ≤ w) (htop : w ≤ h.old_space.top)
    (hmiss : ∀ p ∈ h.old_space.pages, (CheckOldSpacePage h w p).1 = false) :
    (∀ pre L post, h.lo_space = pre ++ L :: post → (∀ q ∈ pre, ¬ q.Contains w) →
      L.Contains w → roots (VisitPointer h w).2 = [L.area_start]) ∧
    ((∀ L ∈ h.lo_space, ¬ L.Contains w) → roots (VisitPointer h w).2 = []) ∧
    pins (VisitPointer h w).2 = [] ∧
    (VisitPointer h w).1 = h ∧ (VisitPointer h w).1.pinnedFlags = h.pinnedFlags := by
  have hf := oldSpaceLoop_all_false h w h.old_space.pages 0 hmiss
  obtain ⟨_, e2, e3, e4, _⟩ := VisitPointer_miss h w hlimit htop hf
  refine ⟨?_, ?_, ?_, by rw [e2], by rw [e2]⟩
  · intro pre L post hls hpre hL
    rw [e2]
    show roots (_ ++ loSpaceLoop w h.lo_space) = _
    rw [roots_append, e3, hls, loSpaceLoop_hit w pre L post hpre hL]
    rfl
  · intro hnone
    rw [e2]
    show roots (_ ++ loSpaceLoop w h.lo_space) = _
    rw [roots_append, e3, loSpaceLoop_outside w _ hnone]
    rfl
  · rw [e2]
    show pins (_ ++ loSpaceLoop w h.lo_space) = _
    rw [pins_append, e4, pins_loSpaceLoop]
    rfl

theorem VisitPointer_large_path_witness :
    roots (VisitPointer wideHeap 0x8010).2 = [0x8000] ∧
    roots (VisitPointer wideHeap 0x3000).2 = [] :=
  ⟨(VisitPointer_large_path wideHeap 0x8010 (by decide) (by decide) (by decide)).1
      [] ⟨0x8000, 0x9000, false⟩ [] rfl (by simp) (by decide),
    (VisitPointer_large_path wideHeap 0x3000 (by decide) (by decide) (by decide)).2.1
      (by decide)⟩

/-- C14 (robustness to a coarse index) at the failing input: on a well-formed page with
adjacent objects at 0x1010 and 0x1020 (size 0x10 each), the address 0x1020 lies in the
second object and the index answers 0x1010, the start of an object of the page at or
before the address; yet `CheckOldSpacePage` reports 0x1010, not 0x1020: the fast path
compares with `<=` and takes the first address past the first object as inside it.  For
0x1024, with the same index answer, it scans and reports 0x1020. -/
theorem CheckOldSpacePage_coarse_index_adjacent :
    ObjectsOrdered coarseHeap coarsePage ∧
    (∀ o ∈ coarsePage.objects, OnPage coarseHeap coarsePage o) ∧
    (0x1020 ≤ 0x1020 ∧ 0x1020 < 0x1020 + HeapObject.Size coarseHeap ⟨0x1020⟩) ∧
    (∃ o ∈ coarsePage.objects,
      o.address = coarsePage.FindNearestPrecedingObject 0x1020 ∧ o.address ≤ 0x1020) ∧
    CheckOldSpacePage coarseHeap 0x1020 coarsePage =
      (true, [Event.FindNearestPrecedingObject 0x1020,
        Event.VisitRootPointer Root.kHandleScope none 0x1010]) ∧
    roots (CheckOldSpacePage coarseHeap 0x1024 coarsePage).2 = [0x1020] := by
  decide

/-- C17 (the fast path is a pure optimisation) at the failing input: on the example page
(objects at 0x1000, size 0x20, and at 0x1030, size 0x10, inside the page, exact index),
for the address 0x1040 `CheckOldSpacePage` returns true and reports 0x1030, while the
scan alone, run from `area_start`, returns false and reports nothing. -/
theorem CheckOldSpacePage_differs_from_scanOnly :
    ObjectsOrdered exampleHeap examplePage ∧
    (∀ o ∈ examplePage.objects, OnPage exampleHeap examplePage o) ∧
    (∀ a, ExactAt examplePage a) ∧
    (CheckOldSpacePage exampleHeap 0x1040 examplePage).1 = true ∧
    roots (CheckOldSpacePage exampleHeap 0x1040 examplePage).2 = [0x1030] ∧
    CheckOldSpacePageScanOnly exampleHeap 0x1040 examplePage = (false, []) :=
  ⟨by decide, by decide, exactIndex_exactAt examplePage rfl, by decide, by decide, by decide⟩

end ConservativeStackVisitor
